import Mathlib

/-!
Verification of the X-ray classification desktop utility (`src/app.py`).

The program's non-UI core is embedded shallowly:

* Python floats are modelled as exact fractions (`Frac`, an integer
  numerator over a natural denominator, never normalised, so that all
  arithmetic is kernel-computable).
* `cv2.imread` is modelled by a `FS` oracle mapping a path to an optional
  decoded pixel grid (`Decoded`): `none` stands for any decode failure
  (the `img is None` branch and any exception caught in
  `preprocess_image`).
* `cv2.resize` is modelled by index-sampling resize (`resizeGrid`): the
  exact interpolation kernel is irrelevant to the properties proved here,
  which only use the output shape and the fact that sampled values come
  from the source grid.
* The Keras model is an oracle `Model`: a function from the input tensor
  to either a batch of probability vectors or an invocation error
  (`Except.error`, standing for the exception raised by
  `model.predict` on e.g. an incompatible tensor, which `predict_image`
  does not catch).
* tkinter calls (`messagebox`, progress bar, listbox) and file writes are
  modelled as an emitted event trace (`Ev`), so that ordering and
  occurrence of side effects can be stated.
-/

namespace XrayApp

/-- An exact fraction: models a Python float value. Denominators are kept
as given (no gcd normalisation) so that all operations reduce in the
kernel. -/
structure Frac where
  num : Int
  den : Nat
deriving DecidableEq, Repr

/-- Strict comparison used by `np.argmax`: `a < b` by cross
multiplication (meaningful when both denominators are positive). -/
def Frac.blt (a b : Frac) : Bool :=
  a.num * (b.den : Int) < b.num * (a.den : Int)

/-- `a ≤ b` by cross multiplication (meaningful when both denominators
are positive). -/
def Frac.fle (a b : Frac) : Prop :=
  a.num * (b.den : Int) ≤ b.num * (a.den : Int)

/-- `a < b` by cross multiplication. -/
def Frac.flt (a b : Frac) : Prop :=
  a.num * (b.den : Int) < b.num * (a.den : Int)

instance (a b : Frac) : Decidable (Frac.fle a b) := by
  unfold Frac.fle; infer_instance

instance (a b : Frac) : Decidable (Frac.flt a b) := by
  unfold Frac.flt; infer_instance

/-- Multiplication by 100 (`preds[idx]*100` in `predict_image`). -/
def Frac.mul100 (a : Frac) : Frac := ⟨a.num * 100, a.den⟩

/-- The value lies in `[0, 1]`. -/
def Frac.inUnit (a : Frac) : Prop :=
  0 < a.den ∧ 0 ≤ a.num ∧ a.num ≤ (a.den : Int)

/-- The value lies in `[0, 100]`. -/
def Frac.inPercent (a : Frac) : Prop :=
  0 < a.den ∧ 0 ≤ a.num ∧ a.num ≤ 100 * (a.den : Int)

instance (a : Frac) : Decidable (Frac.inUnit a) := by
  unfold Frac.inUnit; infer_instance

instance (a : Frac) : Decidable (Frac.inPercent a) := by
  unfold Frac.inPercent; infer_instance

/-- Two-decimal fixed formatting of a nonnegative value, as Python
`f"{x:.2f}"` renders a float: the exact value is rounded to two decimal
places, ties to even. Returns the digits without the percent sign. -/
def fmt2 (x : Frac) : String :=
  let a := x.num.toNat * 100
  let b := x.den
  let q := a / b
  let r := a % b
  let n := if 2 * r < b then q else if b < 2 * r then q + 1
           else if q % 2 = 0 then q else q + 1
  let ip := n / 100
  let fp := n % 100
  toString ip ++ "." ++ (if fp < 10 then "0" else "") ++ toString fp

/-- `CLASS_NAMES` in app.py: the fixed ordered 4-element label set. -/
def CLASS_NAMES : List String := ["COVID", "TB", "PNEUMONIA", "NORMAL"]

/-- `CLASS_COLORS` in app.py: label to display color. -/
def CLASS_COLORS : List (String × String) :=
  [("COVID", "#FF4C4C"), ("TB", "#FF9900"),
   ("PNEUMONIA", "#FFD700"), ("NORMAL", "#4CAF50")]

/-- `CLASS_COLORS.get(label, dflt)`: dictionary lookup with default. -/
def colorsGet (label dflt : String) : String :=
  ((CLASS_COLORS.find? (fun p => p.1 == label)).map (fun p => p.2)).getD dflt

/-- `np.argmax` on a vector: the index of the first occurrence of the
maximum value (0 on the empty list). -/
def argmaxIdx : List Frac → Nat
  | [] => 0
  | [_] => 0
  | x :: y :: rest =>
    let j := argmaxIdx (y :: rest)
    if Frac.blt x ((y :: rest).getD j ⟨0, 1⟩) then j + 1 else 0

/-- The pixel grid produced by `cv2.imread(path, cv2.IMREAD_UNCHANGED)`:
either a 2-dimensional grayscale array or a 3-dimensional array whose
innermost lists are the per-pixel channel samples. Sample values are raw
integers (`≤ 255` for 8-bit data; `IMREAD_UNCHANGED` preserves deeper
bit depths, so larger values are possible). -/
inductive Decoded where
  | gray (rows : List (List Nat))
  | multi (rows : List (List (List Nat)))
deriving DecidableEq

/-- Replication of a single sample into 3 channels, as
`cv2.cvtColor(·, cv2.COLOR_GRAY2RGB)` does. -/
def expandPix (v : Nat) : List Nat := [v, v, v]

/-- `img.shape[2]` of a 3-dimensional grid (channel count of the first
pixel). -/
def channelCount (rows : List (List (List Nat))) : Nat :=
  ((rows.headD []).headD []).length

/-- Lines 41-42 of app.py: if the grid is 2-dimensional or has channel
count 1, expand to 3 channels by replication; otherwise leave it as is
(note: a 4-channel grid passes through unchanged). -/
def toMulti : Decoded → List (List (List Nat))
  | .gray rows => rows.map (fun r => r.map expandPix)
  | .multi rows =>
    if channelCount rows = 1 then
      rows.map (fun r => r.map (fun px => expandPix (px.headD 0)))
    else rows

/-- `cv2.resize(img, (W, H))`, modelled by index-sampling: output pixel
`(i, j)` is source pixel `(i*h/H, j*w/W)`. Preserves the channel count
and draws every output value from the source grid, which is all the
properties below rely on. -/
def resizeGrid (hgt wdt : Nat) (rows : List (List (List Nat))) :
    List (List (List Nat)) :=
  let h := rows.length
  let w := (rows.headD []).length
  (List.range hgt).map (fun i => (List.range wdt).map (fun j =>
    (rows.getD (i * h / hgt) []).getD (j * w / wdt) []))

/-- `img.astype(np.float32)/255.0`. -/
def normalize (rows : List (List (List Nat))) : List (List (List Frac)) :=
  rows.map (fun r => r.map (fun px => px.map (fun v : Nat => Frac.mk (Int.ofNat v) 255)))

/-- The 4-dimensional array fed to the model (batch, rows, cols,
channels). -/
def Tensor := List (List (List (List Frac)))

/-- The numpy shape of a (rectangular) 4-dimensional array. -/
def tensorShape (t : Tensor) : List Nat :=
  [t.length, (t.headD []).length, ((t.headD []).headD []).length,
   (((t.headD []).headD []).headD []).length]

/-- All scalar values of a tensor. -/
def tensorVals (t : Tensor) : List Frac := t.flatten.flatten.flatten

/-- All sample values of a 3-dimensional grid. -/
def gridVals (rows : List (List (List Nat))) : List Nat :=
  rows.flatten.flatten

/-- All sample values of a decoded image. -/
def decodedVals : Decoded → List Nat
  | .gray rows => rows.flatten
  | .multi rows => rows.flatten.flatten

/-- Rectangularity of a 2-dimensional grid: `h` rows of width `w`, both
positive. -/
def Rect2 (rows : List (List Nat)) (h w : Nat) : Prop :=
  rows.length = h ∧ 0 < h ∧ 0 < w ∧ ∀ r ∈ rows, r.length = w

/-- Rectangularity of a 3-dimensional grid: `h` rows of `w` pixels of `c`
channels, `h`, `w` positive. -/
def Rect (rows : List (List (List Nat))) (h w c : Nat) : Prop :=
  rows.length = h ∧ 0 < h ∧ 0 < w ∧
    ∀ r ∈ rows, r.length = w ∧ ∀ px ∈ r, px.length = c

instance (rows : List (List Nat)) (h w : Nat) : Decidable (Rect2 rows h w) := by
  unfold Rect2; infer_instance

instance (rows : List (List (List Nat))) (h w c : Nat) :
    Decidable (Rect rows h w c) := by
  unfold Rect; infer_instance

/-- Lines 41-45 of app.py applied to an already decoded grid: grayscale
expansion, resize to the model's `(IMG_W, IMG_H)`, normalisation by 255,
and the prepended batch dimension. -/
def preprocessDecoded (imgH imgW : Nat) (d : Decoded) : Tensor :=
  [normalize (resizeGrid imgH imgW (toMulti d))]

/-- GUI / file-system side effects, recorded as an event trace. -/
inductive Ev where
  | showError (path : String)
  | setProgress (v : Nat)
  | setProgressMax (n : Nat)
  | clearListbox
  | makeDirs (dir : String)
  | getTimestamp
  | predictCall (path : String)
  | insertItem (s : String)
  | itemconfig (idx : Nat) (color : String)
  | updateIdletasks
  | writeFile (path : String) (rows : List (List String))
  | showInfo (msg : String)
deriving DecidableEq

/-- The decoding oracle: what `cv2.imread(path, cv2.IMREAD_UNCHANGED)`
yields per path, with `none` for any decode failure. -/
def FS := String → Option Decoded

/-- `preprocess_image` (lines 36-49): on decode failure an error dialog
is shown (`messagebox.showerror`) and `None` is returned; otherwise the
normalised tensor. The emitted events are returned alongside. -/
def preprocess_image (imgH imgW : Nat) (fs : FS) (path : String) :
    Option Tensor × List Ev :=
  match fs path with
  | none => (none, [Ev.showError path])
  | some d => (some (preprocessDecoded imgH imgW d), [])

/-- The Model Provider oracle: `model.predict` returns a batch of
probability vectors, or raises (modelled as `Except.error`) on an
invocation failure such as an incompatible tensor shape. -/
def Model := Tensor → Except Unit (List (List Frac))

/-- `predict_image` (lines 51-57): `(None, None)` when preprocessing
fails; otherwise the first output row is reduced by `np.argmax`, the
index is mapped into `CLASS_NAMES`, and the selected probability is
scaled by 100. A `model.predict` exception is not caught and
propagates (`Except.error`). -/
def predict_image (imgH imgW : Nat) (fs : FS) (model : Model)
    (path : String) : List Ev × Except Unit (Option String × Option Frac) :=
  match preprocess_image imgH imgW fs path with
  | (none, evs) => (evs, Except.ok (none, none))
  | (some t, evs) =>
    match model t with
    | Except.error u => (evs, Except.error u)
    | Except.ok out =>
      let preds := out.headD []
      let idx := argmaxIdx preds
      (evs, Except.ok (some (CLASS_NAMES.getD idx ""),
                       some (Frac.mul100 (preds.getD idx ⟨0, 1⟩))))

/-- Classification of what `predict_image` does on one path. -/
inductive PStat where
  | success
  | skip
  | raise
deriving DecidableEq

/-- The status of one path under `predict_image`. -/
def pstat (imgH imgW : Nat) (fs : FS) (model : Model) (path : String) :
    PStat :=
  match (predict_image imgH imgW fs model path).2 with
  | Except.ok (some _, _) => PStat.success
  | Except.ok (none, _) => PStat.skip
  | Except.error _ => PStat.raise

/-- `os.path.basename`, with `/` as separator. -/
def basename (p : String) : String := (p.splitOn "/").getLastD ""

/-- `os.path.join`, with `/` as separator. -/
def pathJoin (a b : String) : String := a ++ "/" ++ b

/-- The report row appended for a path when it succeeds (line 103), and
`none` when the entry is skipped or raises. -/
def rowOf (imgH imgW : Nat) (fs : FS) (model : Model) (p : String) :
    Option (List String) :=
  match (predict_image imgH imgW fs model p).2 with
  | Except.ok (some label, c) =>
    some [basename p, label, fmt2 (c.getD ⟨0, 1⟩) ++ "%"]
  | _ => none

/-- The listbox line inserted for a path when it succeeds (line 104). -/
def itemOf (imgH imgW : Nat) (fs : FS) (model : Model) (p : String) :
    Option String :=
  match (predict_image imgH imgW fs model p).2 with
  | Except.ok (some label, c) =>
    some (basename p ++ " → " ++ label ++ " (" ++ fmt2 (c.getD ⟨0, 1⟩) ++ "%)")
  | _ => none

/-- Mutable GUI/accumulator state threaded through the batch loop. -/
structure BatchSt where
  evs : List Ev
  results : List (List String)
  items : List String
  cfgPairs : List (Nat × Nat)
  progressVal : Nat

/-- The `for i, file_path in enumerate(file_paths, 1)` loop of
`batch_predict` (lines 99-107). Returns `false` together with the state
reached so far when a `model.predict` exception escapes (which in the
source aborts the whole handler). `cfgPairs` records, for each
`listbox.itemconfig(i-1, ...)` call, the index passed and the number of
listbox entries existing at that moment. -/
def batchLoop (imgH imgW : Nat) (fs : FS) (model : Model) :
    Nat → List String → BatchSt → Bool × BatchSt
  | _, [], st => (true, st)
  | i, path :: rest, st =>
    let pr := predict_image imgH imgW fs model path
    match pr.2 with
    | Except.error _ =>
      (false, { st with evs := st.evs ++ Ev.predictCall path :: pr.1 })
    | Except.ok (none, _) =>
      batchLoop imgH imgW fs model (i + 1) rest
        { st with evs := st.evs ++ Ev.predictCall path :: pr.1 }
    | Except.ok (some label, c) =>
      let conf := c.getD ⟨0, 1⟩
      let row := [basename path, label, fmt2 conf ++ "%"]
      let item := basename path ++ " → " ++ label ++ " (" ++ fmt2 conf ++ "%)"
      let items2 := st.items ++ [item]
      batchLoop imgH imgW fs model (i + 1) rest
        { evs := st.evs ++ Ev.predictCall path :: pr.1 ++
            [Ev.insertItem item, Ev.itemconfig (i - 1) (colorsGet label "black"),
             Ev.setProgress i, Ev.updateIdletasks],
          results := st.results ++ [row],
          items := items2,
          cfgPairs := st.cfgPairs ++ [(i - 1, items2.length)],
          progressVal := i }

/-- Observable outcome of one `batch_predict` invocation. -/
structure BatchOut where
  trace : List Ev
  results : List (List String)
  progressMax : Nat
  progressValue : Nat
  listboxItems : List String
  cfgPairs : List (Nat × Nat)
  csvFile : String
  written : Option (List (List String))
  completed : Bool

/-- `batch_predict` (lines 87-112). `none` models the early return when
the file picker is cancelled. `ts` is the string `datetime.now()`
produces at line 97; the `getTimestamp` event marks the moment it is
read. When the loop raises, the handler aborts: no file is written and
no completion dialog is shown. -/
def batch_predict (imgH imgW : Nat) (fs : FS) (model : Model)
    (datasetDir ts : String) (file_paths : List String) : Option BatchOut :=
  if file_paths = [] then none
  else
    let save_folder := pathJoin datasetDir "predictions"
    let csv_file := pathJoin save_folder ("xray_predictions_" ++ ts ++ ".csv")
    let pre : List Ev :=
      [Ev.setProgress 0, Ev.setProgressMax file_paths.length, Ev.clearListbox,
       Ev.makeDirs save_folder, Ev.getTimestamp]
    let r := batchLoop imgH imgW fs model 1 file_paths
      { evs := pre, results := [], items := [], cfgPairs := [], progressVal := 0 }
    if r.1 then
      some { trace := r.2.evs ++
               [Ev.writeFile csv_file
                  ([["Image", "Prediction", "Confidence"]] ++ r.2.results),
                Ev.showInfo csv_file],
             results := r.2.results,
             progressMax := file_paths.length,
             progressValue := r.2.progressVal,
             listboxItems := r.2.items,
             cfgPairs := r.2.cfgPairs,
             csvFile := csv_file,
             written := some ([["Image", "Prediction", "Confidence"]] ++ r.2.results),
             completed := true }
    else
      some { trace := r.2.evs,
             results := r.2.results,
             progressMax := file_paths.length,
             progressValue := r.2.progressVal,
             listboxItems := r.2.items,
             cfgPairs := r.2.cfgPairs,
             csvFile := csv_file,
             written := none,
             completed := false }

/-- Drawing commands issued on the thumbnail by `overlay_prediction`. -/
inductive DrawOp where
  | rect (x0 y0 x1 y1 : Nat) (fill : String)
  | text (x y : Nat) (s : String) (fill : String)
deriving DecidableEq

/-- `img.thumbnail((300, 300))`: downscale preserving aspect ratio so
neither dimension exceeds 300, never upscale. Rounding of the scaled
dimension is modelled as round-half-up with a floor of 1. -/
def thumbnailDims (w h : Nat) : Nat × Nat :=
  if w ≤ 300 ∧ h ≤ 300 then (w, h)
  else if h ≤ w then (300, max 1 ((h * 300 + w / 2) / w))
  else (max 1 ((w * 300 + h / 2) / h), 300)

/-- `overlay_prediction` (lines 59-69): thumbnail the source image, draw
the banner rectangle filled with the label's color (black when the label
is unmapped) and the `"<label> (<confidence:.2f>%)"` text in white.
Returns the rendered image (its dimensions and draw commands); nothing
else is produced. `w`, `h` are the source image's dimensions. -/
def overlay_prediction (w h : Nat) (label : String) (confidence : Frac) :
    (Nat × Nat) × List DrawOp :=
  let dims := thumbnailDims w h
  (dims,
   [DrawOp.rect 0 0 dims.1 25 (colorsGet label "black"),
    DrawOp.text 5 5 (label ++ " (" ++ fmt2 confidence ++ "%)") "white"])

/-- What one `upload_predict_single` invocation leaves on screen. -/
structure SingleOut where
  evs : List Ev
  displayedImage : Option ((Nat × Nat) × List DrawOp)
  resultText : Option (String × String)

/-- `upload_predict_single` (lines 74-85). `none` models the early
return on a cancelled picker; `Except.error` the uncaught
`model.predict` exception. `dims` gives the source image's dimensions
(`Image.open`) for the overlay. -/
def upload_predict_single (imgH imgW : Nat) (fs : FS) (model : Model)
    (dims : String → Nat × Nat) (file_path : String) :
    Option (Except Unit SingleOut) :=
  if file_path = "" then none
  else
    let pr := predict_image imgH imgW fs model file_path
    match pr.2 with
    | Except.error u => some (Except.error u)
    | Except.ok (none, _) =>
      some (Except.ok ⟨pr.1, none, none⟩)
    | Except.ok (some label, c) =>
      let conf := c.getD ⟨0, 1⟩
      let d := dims file_path
      some (Except.ok
        ⟨pr.1,
         some (overlay_prediction d.1 d.2 label conf),
         some ("Prediction: " ++ label ++ "\nConfidence: " ++ fmt2 conf ++ "%",
               colorsGet label "black")⟩)

/-- Whether the whole batch loop runs to completion (no uncaught
`model.predict` exception). -/
def loopOk (imgH imgW : Nat) (fs : FS) (model : Model) :
    List String → Bool
  | [] => true
  | p :: rest =>
    match pstat imgH imgW fs model p with
    | PStat.raise => false
    | _ => loopOk imgH imgW fs model rest

/-- The events the batch loop appends to the trace, in order, starting
at 1-based position `i`; stops at the first raising entry. -/
def loopTail (imgH imgW : Nat) (fs : FS) (model : Model) :
    Nat → List String → List Ev
  | _, [] => []
  | i, p :: rest =>
    let pr := predict_image imgH imgW fs model p
    match pr.2 with
    | Except.error _ => Ev.predictCall p :: pr.1
    | Except.ok (none, _) =>
      Ev.predictCall p :: pr.1 ++ loopTail imgH imgW fs model (i + 1) rest
    | Except.ok (some label, c) =>
      let conf := c.getD ⟨0, 1⟩
      let item := basename p ++ " → " ++ label ++ " (" ++ fmt2 conf ++ "%)"
      Ev.predictCall p :: pr.1 ++
        [Ev.insertItem item, Ev.itemconfig (i - 1) (colorsGet label "black"),
         Ev.setProgress i, Ev.updateIdletasks] ++
        loopTail imgH imgW fs model (i + 1) rest

/-- The report rows the batch loop accumulates; stops at the first
raising entry. -/
def loopRows (imgH imgW : Nat) (fs : FS) (model : Model) :
    List String → List (List String)
  | [] => []
  | p :: rest =>
    match pstat imgH imgW fs model p with
    | PStat.raise => []
    | PStat.skip => loopRows imgH imgW fs model rest
    | PStat.success =>
      (rowOf imgH imgW fs model p).toList ++ loopRows imgH imgW fs model rest

/-- The listbox lines the batch loop accumulates; stops at the first
raising entry. -/
def loopItems (imgH imgW : Nat) (fs : FS) (model : Model) :
    List String → List String
  | [] => []
  | p :: rest =>
    match pstat imgH imgW fs model p with
    | PStat.raise => []
    | PStat.skip => loopItems imgH imgW fs model rest
    | PStat.success =>
      (itemOf imgH imgW fs model p).toList ++ loopItems imgH imgW fs model rest

/-- The `(index, listbox length)` pairs of the loop's `itemconfig`
calls, starting at 1-based position `i` with `acc` entries already in
the listbox; stops at the first raising entry. -/
def loopPairs (imgH imgW : Nat) (fs : FS) (model : Model) :
    Nat → Nat → List String → List (Nat × Nat)
  | _, _, [] => []
  | i, acc, p :: rest =>
    match pstat imgH imgW fs model p with
    | PStat.raise => []
    | PStat.skip => loopPairs imgH imgW fs model (i + 1) acc rest
    | PStat.success =>
      (i - 1, acc + 1) :: loopPairs imgH imgW fs model (i + 1) (acc + 1) rest

/-- The final progress value, starting at 1-based position `i` with
current value `cur`; stops at the first raising entry. -/
def loopProg (imgH imgW : Nat) (fs : FS) (model : Model) :
    Nat → Nat → List String → Nat
  | _, cur, [] => cur
  | i, cur, p :: rest =>
    match pstat imgH imgW fs model p with
    | PStat.raise => cur
    | PStat.skip => loopProg imgH imgW fs model (i + 1) cur rest
    | PStat.success => loopProg imgH imgW fs model (i + 1) i rest

/-- The paths for which `predict_image` was invoked, read off a trace. -/
def calledPaths (trace : List Ev) : List String :=
  trace.filterMap (fun e => match e with
    | Ev.predictCall p => some p
    | _ => none)

/-- Whether an event is a report-file write. -/
def isWrite : Ev → Bool
  | Ev.writeFile _ _ => true
  | _ => false

/-- The CSV header row (line 110). -/
def headerRow : List (List String) := [["Image", "Prediction", "Confidence"]]

theorem Frac.blt_true {a b : Frac} (h : Frac.blt a b = true) : Frac.flt a b := by
  simpa [Frac.blt, Frac.flt] using h

theorem Frac.blt_false {a b : Frac} (h : Frac.blt a b = false) : Frac.fle b a := by
  simp only [Frac.blt, decide_eq_false_iff_not, not_lt] at h
  exact h

theorem Frac.fle_of_flt {a b : Frac} (h : Frac.flt a b) : Frac.fle a b :=
  le_of_lt h

theorem Frac.fle_refl (a : Frac) : Frac.fle a a := le_refl _

theorem Frac.fle_trans {a b c : Frac} (hb : 0 < b.den)
    (h1 : Frac.fle a b) (h2 : Frac.fle b c) : Frac.fle a c := by
  unfold Frac.fle at h1 h2 ⊢
  have hb' : (0 : Int) < (b.den : Int) := by exact_mod_cast hb
  have m1 : a.num * (b.den : Int) * (c.den : Int) ≤ b.num * (a.den : Int) * (c.den : Int) :=
    mul_le_mul_of_nonneg_right h1 (by positivity)
  have m2 : b.num * (c.den : Int) * (a.den : Int) ≤ c.num * (b.den : Int) * (a.den : Int) :=
    mul_le_mul_of_nonneg_right h2 (by positivity)
  have key : a.num * (c.den : Int) * (b.den : Int) ≤ c.num * (a.den : Int) * (b.den : Int) := by
    nlinarith [m1, m2]
  exact le_of_mul_le_mul_right key hb'

theorem Frac.inPercent_mul100 {a : Frac} (h : Frac.inUnit a) :
    Frac.inPercent (Frac.mul100 a) := by
  obtain ⟨hd, h0, h1⟩ := h
  exact ⟨hd, by simp only [Frac.mul100]; omega, by simp only [Frac.mul100]; omega⟩

/-- C2: for every probability vector of length 4 produced by the Model
Provider, `predict_image` selects the index of the maximum value,
breaking exact ties by the lowest index (first-max), maps that index
positionally into `CLASS_NAMES`, and returns that label together with
the selected probability times 100; the label is one of the 4 labels and
the confidence lies in `[0, 100]`. -/
theorem predict_image_first_argmax (imgH imgW : Nat) (fs : FS) (model : Model)
    (p : String) (d : Decoded) (preds : List Frac)
    (hfs : fs p = some d)
    (hm : model (preprocessDecoded imgH imgW d) = Except.ok [preds])
    (hlen : preds.length = 4)
    (hprob : ∀ q ∈ preds, Frac.inUnit q) :
    ∃ label conf,
      predict_image imgH imgW fs model p = ([], Except.ok (some label, some conf)) ∧
      label = CLASS_NAMES.getD (argmaxIdx preds) "" ∧
      label ∈ CLASS_NAMES ∧
      conf = Frac.mul100 (preds.getD (argmaxIdx preds) ⟨0, 1⟩) ∧
      Frac.inPercent conf ∧
      argmaxIdx preds < 4 ∧
      (∀ j, j < 4 →
        Frac.fle (preds.getD j ⟨0, 1⟩) (preds.getD (argmaxIdx preds) ⟨0, 1⟩)) ∧
      (∀ j, j < argmaxIdx preds →
        Frac.flt (preds.getD j ⟨0, 1⟩) (preds.getD (argmaxIdx preds) ⟨0, 1⟩)) := by
  rcases preds with _ | ⟨a, preds⟩; · simp at hlen
  rcases preds with _ | ⟨b, preds⟩; · simp at hlen
  rcases preds with _ | ⟨c, preds⟩; · simp at hlen
  rcases preds with _ | ⟨e, preds⟩; · simp at hlen
  rcases preds with _ | ⟨x, preds⟩
  case cons => simp at hlen
  have ha := hprob a (by simp)
  have hb := hprob b (by simp)
  have hc := hprob c (by simp)
  have he := hprob e (by simp)
  have hpred : predict_image imgH imgW fs model p =
      ([], Except.ok (some (CLASS_NAMES.getD (argmaxIdx [a, b, c, e]) ""),
                      some (Frac.mul100 ([a, b, c, e].getD (argmaxIdx [a, b, c, e]) ⟨0, 1⟩)))) := by
    simp [predict_image, preprocess_image, hfs, hm]
  cases h1 : Frac.blt c e with
  | true =>
    cases h2 : Frac.blt b e with
    | true =>
      cases h3 : Frac.blt a e with
      | true =>
        have hidx : argmaxIdx [a, b, c, e] = 3 := by simp [argmaxIdx, h1, h2, h3]
        have f1 := Frac.blt_true h1
        have f2 := Frac.blt_true h2
        have f3 := Frac.blt_true h3
        refine ⟨_, _, hpred, rfl, ?_, rfl, ?_, ?_, ?_, ?_⟩ <;> rw [hidx]
        · decide
        · exact Frac.inPercent_mul100 (by simpa using he)
        · omega
        · intro j hj
          interval_cases j <;> simp only [List.getD_cons_succ, List.getD_cons_zero]
          · exact Frac.fle_of_flt f3
          · exact Frac.fle_of_flt f2
          · exact Frac.fle_of_flt f1
          · exact Frac.fle_refl e
        · intro j hj
          interval_cases j <;> simp only [List.getD_cons_succ, List.getD_cons_zero]
          · exact f3
          · exact f2
          · exact f1
      | false =>
        have hidx : argmaxIdx [a, b, c, e] = 0 := by simp [argmaxIdx, h1, h2, h3]
        have f1 := Frac.blt_true h1
        have f2 := Frac.blt_true h2
        have g3 := Frac.blt_false h3
        refine ⟨_, _, hpred, rfl, ?_, rfl, ?_, ?_, ?_, ?_⟩ <;> rw [hidx]
        · decide
        · exact Frac.inPercent_mul100 (by simpa using ha)
        · omega
        · intro j hj
          interval_cases j <;> simp only [List.getD_cons_succ, List.getD_cons_zero]
          · exact Frac.fle_refl a
          · exact Frac.fle_trans he.1 (Frac.fle_of_flt f2) g3
          · exact Frac.fle_trans he.1 (Frac.fle_of_flt f1) g3
          · exact g3
        · intro j hj; exact (Nat.not_lt_zero j hj).elim
    | false =>
      cases h3 : Frac.blt a b with
      | true =>
        have hidx : argmaxIdx [a, b, c, e] = 1 := by simp [argmaxIdx, h1, h2, h3]
        have f1 := Frac.blt_true h1
        have g2 := Frac.blt_false h2
        have f3 := Frac.blt_true h3
        refine ⟨_, _, hpred, rfl, ?_, rfl, ?_, ?_, ?_, ?_⟩ <;> rw [hidx]
        · decide
        · exact Frac.inPercent_mul100 (by simpa using hb)
        · omega
        · intro j hj
          interval_cases j <;> simp only [List.getD_cons_succ, List.getD_cons_zero]
          · exact Frac.fle_of_flt f3
          · exact Frac.fle_refl b
          · exact Frac.fle_trans he.1 (Frac.fle_of_flt f1) g2
          · exact g2
        · intro j hj
          interval_cases j <;> simp only [List.getD_cons_succ, List.getD_cons_zero]
          exact f3
      | false =>
        have hidx : argmaxIdx [a, b, c, e] = 0 := by simp [argmaxIdx, h1, h2, h3]
        have f1 := Frac.blt_true h1
        have g2 := Frac.blt_false h2
        have g3 := Frac.blt_false h3
        refine ⟨_, _, hpred, rfl, ?_, rfl, ?_, ?_, ?_, ?_⟩ <;> rw [hidx]
        · decide
        · exact Frac.inPercent_mul100 (by simpa using ha)
        · omega
        · intro j hj
          interval_cases j <;> simp only [List.getD_cons_succ, List.getD_cons_zero]
          · exact Frac.fle_refl a
          · exact g3
          · exact Frac.fle_trans hb.1 (Frac.fle_trans he.1 (Frac.fle_of_flt f1) g2) g3
          · exact Frac.fle_trans hb.1 g2 g3
        · intro j hj; exact (Nat.not_lt_zero j hj).elim
  | false =>
    cases h2 : Frac.blt b c with
    | true =>
      cases h3 : Frac.blt a c with
      | true =>
        have hidx : argmaxIdx [a, b, c, e] = 2 := by simp [argmaxIdx, h1, h2, h3]
        have g1 := Frac.blt_false h1
        have f2 := Frac.blt_true h2
        have f3 := Frac.blt_true h3
        refine ⟨_, _, hpred, rfl, ?_, rfl, ?_, ?_, ?_, ?_⟩ <;> rw [hidx]
        · decide
        · exact Frac.inPercent_mul100 (by simpa using hc)
        · omega
        · intro j hj
          interval_cases j <;> simp only [List.getD_cons_succ, List.getD_cons_zero]
          · exact Frac.fle_of_flt f3
          · exact Frac.fle_of_flt f2
          · exact Frac.fle_refl c
          · exact g1
        · intro j hj
          interval_cases j <;> simp only [List.getD_cons_succ, List.getD_cons_zero]
          · exact f3
          · exact f2
      | false =>
        have hidx : argmaxIdx [a, b, c, e] = 0 := by simp [argmaxIdx, h1, h2, h3]
        have g1 := Frac.blt_false h1
        have f2 := Frac.blt_true h2
        have g3 := Frac.blt_false h3
        refine ⟨_, _, hpred, rfl, ?_, rfl, ?_, ?_, ?_, ?_⟩ <;> rw [hidx]
        · decide
        · exact Frac.inPercent_mul100 (by simpa using ha)
        · omega
        · intro j hj
          interval_cases j <;> simp only [List.getD_cons_succ, List.getD_cons_zero]
          · exact Frac.fle_refl a
          · exact Frac.fle_trans hc.1 (Frac.fle_of_flt f2) g3
          · exact g3
          · exact Frac.fle_trans hc.1 g1 g3
        · intro j hj; exact (Nat.not_lt_zero j hj).elim
    | false =>
      cases h3 : Frac.blt a b with
      | true =>
        have hidx : argmaxIdx [a, b, c, e] = 1 := by simp [argmaxIdx, h1, h2, h3]
        have g1 := Frac.blt_false h1
        have g2 := Frac.blt_false h2
        have f3 := Frac.blt_true h3
        refine ⟨_, _, hpred, rfl, ?_, rfl, ?_, ?_, ?_, ?_⟩ <;> rw [hidx]
        · decide
        · exact Frac.inPercent_mul100 (by simpa using hb)
        · omega
        · intro j hj
          interval_cases j <;> simp only [List.getD_cons_succ, List.getD_cons_zero]
          · exact Frac.fle_of_flt f3
          · exact Frac.fle_refl b
          · exact g2
          · exact Frac.fle_trans hc.1 g1 g2
        · intro j hj
          interval_cases j <;> simp only [List.getD_cons_succ, List.getD_cons_zero]
          exact f3
      | false =>
        have hidx : argmaxIdx [a, b, c, e] = 0 := by simp [argmaxIdx, h1, h2, h3]
        have g1 := Frac.blt_false h1
        have g2 := Frac.blt_false h2
        have g3 := Frac.blt_false h3
        refine ⟨_, _, hpred, rfl, ?_, rfl, ?_, ?_, ?_, ?_⟩ <;> rw [hidx]
        · decide
        · exact Frac.inPercent_mul100 (by simpa using ha)
        · omega
        · intro j hj
          interval_cases j <;> simp only [List.getD_cons_succ, List.getD_cons_zero]
          · exact Frac.fle_refl a
          · exact g3
          · exact Frac.fle_trans hb.1 g2 g3
          · exact Frac.fle_trans hb.1 (Frac.fle_trans hc.1 g1 g2) g3
        · intro j hj; exact (Nat.not_lt_zero j hj).elim

/-- C2 witness: the theorem applied to a concrete one-pixel image and a
concrete probability vector whose maximum sits at index 1. -/
theorem predict_image_first_argmax_witness :
    ∃ label conf,
      predict_image 1 1 (fun _ => some (Decoded.gray [[7]]))
        (fun _ => Except.ok [[⟨1, 4⟩, ⟨1, 2⟩, ⟨1, 8⟩, ⟨1, 8⟩]]) "a" =
        ([], Except.ok (some label, some conf)) ∧
      label = CLASS_NAMES.getD (argmaxIdx [⟨1, 4⟩, ⟨1, 2⟩, ⟨1, 8⟩, ⟨1, 8⟩]) "" ∧
      label ∈ CLASS_NAMES ∧
      conf = Frac.mul100 (([⟨1, 4⟩, ⟨1, 2⟩, ⟨1, 8⟩, ⟨1, 8⟩] :
        List Frac).getD (argmaxIdx [⟨1, 4⟩, ⟨1, 2⟩, ⟨1, 8⟩, ⟨1, 8⟩]) ⟨0, 1⟩) ∧
      Frac.inPercent conf ∧
      argmaxIdx [⟨1, 4⟩, ⟨1, 2⟩, ⟨1, 8⟩, ⟨1, 8⟩] < 4 ∧
      (∀ j, j < 4 → Frac.fle (([⟨1, 4⟩, ⟨1, 2⟩, ⟨1, 8⟩, ⟨1, 8⟩] :
        List Frac).getD j ⟨0, 1⟩)
        (([⟨1, 4⟩, ⟨1, 2⟩, ⟨1, 8⟩, ⟨1, 8⟩] : List Frac).getD
          (argmaxIdx [⟨1, 4⟩, ⟨1, 2⟩, ⟨1, 8⟩, ⟨1, 8⟩]) ⟨0, 1⟩)) ∧
      (∀ j, j < argmaxIdx [⟨1, 4⟩, ⟨1, 2⟩, ⟨1, 8⟩, ⟨1, 8⟩] →
        Frac.flt (([⟨1, 4⟩, ⟨1, 2⟩, ⟨1, 8⟩, ⟨1, 8⟩] : List Frac).getD j ⟨0, 1⟩)
        (([⟨1, 4⟩, ⟨1, 2⟩, ⟨1, 8⟩, ⟨1, 8⟩] : List Frac).getD
          (argmaxIdx [⟨1, 4⟩, ⟨1, 2⟩, ⟨1, 8⟩, ⟨1, 8⟩]) ⟨0, 1⟩)) :=
  predict_image_first_argmax 1 1 (fun _ => some (Decoded.gray [[7]]))
    (fun _ => Except.ok [[⟨1, 4⟩, ⟨1, 2⟩, ⟨1, 8⟩, ⟨1, 8⟩]]) "a"
    (Decoded.gray [[7]]) [⟨1, 4⟩, ⟨1, 2⟩, ⟨1, 8⟩, ⟨1, 8⟩]
    rfl rfl rfl (by decide)

theorem rect_headD {rows : List (List (List Nat))} {h w c : Nat}
    (hr : Rect rows h w c) :
    (rows.headD []).length = w ∧ ((rows.headD []).headD []).length = c := by
  obtain ⟨hl, hh, hw, hrw⟩ := hr
  rcases rows with _ | ⟨r0, rest⟩
  · simp at hl; omega
  obtain ⟨hr0len, hr0px⟩ := hrw r0 (by simp)
  rcases r0 with _ | ⟨px0, rpx⟩
  · simp at hr0len; omega
  exact ⟨hr0len, hr0px px0 (by simp)⟩

theorem toMulti_rect_gray {rows : List (List Nat)} {h w : Nat}
    (hr : Rect2 rows h w) : Rect (toMulti (Decoded.gray rows)) h w 3 := by
  obtain ⟨hl, hh, hw, hrw⟩ := hr
  refine ⟨by simpa [toMulti], hh, hw, ?_⟩
  intro r hrm
  rcases List.mem_map.1 hrm with ⟨r0, hr0, rfl⟩
  refine ⟨by simpa using hrw r0 hr0, ?_⟩
  intro px hpx
  rcases List.mem_map.1 hpx with ⟨v, _, rfl⟩
  rfl

theorem toMulti_rect_one {rows : List (List (List Nat))} {h w : Nat}
    (hr : Rect rows h w 1) : Rect (toMulti (Decoded.multi rows)) h w 3 := by
  have hch : channelCount rows = 1 := (rect_headD hr).2
  obtain ⟨hl, hh, hw, hrw⟩ := hr
  refine ⟨by simpa [toMulti, hch], hh, hw, ?_⟩
  intro r hrm
  simp only [toMulti, hch, if_pos] at hrm
  rcases List.mem_map.1 hrm with ⟨r0, hr0, rfl⟩
  refine ⟨by simpa using (hrw r0 hr0).1, ?_⟩
  intro px hpx
  rcases List.mem_map.1 hpx with ⟨v, _, rfl⟩
  rfl

theorem toMulti_three {rows : List (List (List Nat))} {h w : Nat}
    (hr : Rect rows h w 3) : toMulti (Decoded.multi rows) = rows := by
  have hch : channelCount rows = 3 := (rect_headD hr).2
  simp [toMulti, hch]

theorem toMulti_vals_gray {rows : List (List Nat)} :
    ∀ v ∈ gridVals (toMulti (Decoded.gray rows)), v ∈ rows.flatten := by
  intro v hv
  simp only [toMulti, gridVals, List.mem_flatten, List.mem_map] at hv
  obtain ⟨px, ⟨r, ⟨⟨r0, hr0, rfl⟩, hpx⟩⟩, hvpx⟩ := hv
  rcases List.mem_map.1 hpx with ⟨v0, hv0, rfl⟩
  simp only [expandPix, List.mem_cons, List.mem_singleton] at hvpx
  have : v = v0 := by rcases hvpx with h | h | h <;> simp_all
  subst this
  exact List.mem_flatten.2 ⟨r0, hr0, hv0⟩

theorem toMulti_vals_one {rows : List (List (List Nat))} {h w : Nat}
    (hr : Rect rows h w 1) :
    ∀ v ∈ gridVals (toMulti (Decoded.multi rows)), v ∈ gridVals rows := by
  have hch : channelCount rows = 1 := (rect_headD hr).2
  have htm : toMulti (Decoded.multi rows) =
      rows.map (fun r => r.map (fun px => expandPix (px.headD 0))) := by
    simp [toMulti, hch]
  intro v hv
  rw [htm] at hv
  simp only [gridVals, List.mem_flatten] at hv
  obtain ⟨px, ⟨r, hrm, hpxr⟩, hvpx⟩ := hv
  rcases List.mem_map.1 hrm with ⟨r0, hr0, rfl⟩
  rcases List.mem_map.1 hpxr with ⟨px0, hpx0, rfl⟩
  have hpx0len : px0.length = 1 := (hr.2.2.2 r0 hr0).2 px0 hpx0
  rcases px0 with _ | ⟨v0, px0t⟩
  · simp at hpx0len
  have hv0 : v = v0 := by
    simp only [List.headD_cons, expandPix, List.mem_cons] at hvpx
    rcases hvpx with h | h | h <;> simp_all
  subst hv0
  simp only [gridVals, List.mem_flatten]
  exact ⟨v :: px0t, ⟨r0, hr0, hpx0⟩, by simp⟩

theorem resizeGrid_length (hgt wdt : Nat) (rows : List (List (List Nat))) :
    (resizeGrid hgt wdt rows).length = hgt := by
  simp [resizeGrid]

theorem resizeGrid_mem {hgt wdt h w c : Nat} {rows : List (List (List Nat))}
    (hhgt : 0 < hgt) (hwdt : 0 < wdt) (hr : Rect rows h w c) :
    ∀ r ∈ resizeGrid hgt wdt rows, r.length = wdt ∧
      ∀ px ∈ r, ∃ r' ∈ rows, px ∈ r' := by
  obtain ⟨hl, hh, hw, hrw⟩ := hr
  intro r hrm
  rcases List.mem_map.1 hrm with ⟨i, hi, rfl⟩
  have hi' : i < hgt := List.mem_range.1 hi
  refine ⟨by simp, ?_⟩
  intro px hpx
  rcases List.mem_map.1 hpx with ⟨j, hj, rfl⟩
  have hj' : j < wdt := List.mem_range.1 hj
  have ha : i * rows.length / hgt < rows.length := by
    rw [Nat.div_lt_iff_lt_mul hhgt]
    have : 0 < rows.length := by omega
    calc i * rows.length < hgt * rows.length :=
          Nat.mul_lt_mul_of_lt_of_le hi' (le_refl _) this
      _ = rows.length * hgt := Nat.mul_comm _ _
  have hget : rows.getD (i * rows.length / hgt) [] = rows[i * rows.length / hgt] :=
    List.getD_eq_getElem rows [] ha
  set r' := rows[i * rows.length / hgt] with hr'
  have hr'mem : r' ∈ rows := List.getElem_mem _
  have hr'len : r'.length = w := (hrw r' hr'mem).1
  have hhead : (rows.headD []).length = w := by
    rcases rows with _ | ⟨r0, rest⟩
    · simp at hl; omega
    · exact (hrw r0 (by simp)).1
  have hb : j * (rows.headD []).length / wdt < r'.length := by
    rw [hhead, hr'len, Nat.div_lt_iff_lt_mul hwdt]
    calc j * w < wdt * w := Nat.mul_lt_mul_of_lt_of_le hj' (le_refl _) hw
      _ = w * wdt := Nat.mul_comm _ _
  refine ⟨r', hr'mem, ?_⟩
  rw [hget]
  rw [List.getD_eq_getElem r' [] hb]
  exact List.getElem_mem _

theorem resizeGrid_rect {hgt wdt h w c : Nat} {rows : List (List (List Nat))}
    (hhgt : 0 < hgt) (hwdt : 0 < wdt) (hr : Rect rows h w c) :
    Rect (resizeGrid hgt wdt rows) hgt wdt c := by
  refine ⟨resizeGrid_length hgt wdt rows, hhgt, hwdt, ?_⟩
  intro r hrm
  obtain ⟨hlen, hpx⟩ := resizeGrid_mem hhgt hwdt hr r hrm
  refine ⟨hlen, ?_⟩
  intro px hp
  obtain ⟨r', hr', hpr'⟩ := hpx px hp
  exact (hr.2.2.2 r' hr').2 px hpr'

theorem resizeGrid_vals {hgt wdt h w c : Nat} {rows : List (List (List Nat))}
    (hhgt : 0 < hgt) (hwdt : 0 < wdt) (hr : Rect rows h w c) :
    ∀ v ∈ gridVals (resizeGrid hgt wdt rows), v ∈ gridVals rows := by
  intro v hv
  simp only [gridVals, List.mem_flatten] at hv ⊢
  obtain ⟨px, ⟨r, hrm, hpx⟩, hvpx⟩ := hv
  obtain ⟨r', hr', hpr'⟩ := (resizeGrid_mem hhgt hwdt hr r hrm).2 px hpx
  exact ⟨px, ⟨r', hr', hpr'⟩, hvpx⟩

theorem tensorShape_normalize {rows : List (List (List Nat))} {h w c : Nat}
    (hr : Rect rows h w c) :
    tensorShape [normalize rows] = [1, h, w, c] := by
  obtain ⟨hl, hh, hw, hrw⟩ := hr
  rcases rows with _ | ⟨r0, rest⟩
  · simp at hl; omega
  obtain ⟨hr0len, hr0px⟩ := hrw r0 (by simp)
  rcases r0 with _ | ⟨px0, rpx⟩
  · simp at hr0len; omega
  have hpx0 := hr0px px0 (by simp)
  simp only [tensorShape, normalize, List.map_cons, List.headD_cons,
    List.length_cons, List.length_map, List.length_nil]
  simp_all

theorem tensorVals_normalize {rows : List (List (List Nat))} :
    ∀ v ∈ tensorVals [normalize rows], ∃ n ∈ gridVals rows, v = ⟨(n : Int), 255⟩ := by
  intro v hv
  have hv' : v ∈ (normalize rows).flatten.flatten := by
    simpa [tensorVals] using hv
  simp only [List.mem_flatten] at hv'
  obtain ⟨px, ⟨r, hr, hpx⟩, hvv⟩ := hv'
  simp only [normalize, List.mem_map] at hr
  obtain ⟨r0, hr0, rfl⟩ := hr
  rcases List.mem_map.1 hpx with ⟨px0, hpx0, rfl⟩
  rcases List.mem_map.1 hvv with ⟨n, hn, rfl⟩
  refine ⟨n, ?_, rfl⟩
  simp only [gridVals, List.mem_flatten]
  exact ⟨px0, ⟨r0, hr0, hpx0⟩, hn⟩

/-- C1 counterexample: the claim fails as stated. A decodable 4-channel
image (e.g. a PNG with an alpha channel, which `IMREAD_UNCHANGED`
returns as-is) is preprocessed to shape `(1, H, W, 4)`, not
`(1, H, W, 3)` (shown at `H = W = 2`), and a decodable 16-bit grayscale
image with a sample value of 510 yields a tensor value `510/255 = 2`
outside `[0, 1]`. -/
theorem preprocess_c1_cex :
    (preprocess_image 2 2 (fun _ => some (Decoded.multi [[[1, 2, 3, 4]]])) "a").1.map
      tensorShape = some [1, 2, 2, 4] ∧
    [1, 2, 2, 4] ≠ [1, 2, 2, 3] ∧
    (∃ v ∈ tensorVals
      ((preprocess_image 2 2 (fun _ => some (Decoded.gray [[510]])) "b").1.getD []),
      ¬ Frac.inUnit v) := by
  refine ⟨rfl, by decide, ?_⟩
  decide

/-- C1 (amended): for every decodable image whose pixel grid is
rectangular with 8-bit samples (values ≤ 255) and is either
2-dimensional grayscale, single-channel, or 3-channel,
`preprocess_image` succeeds with no error dialog and returns a tensor of
shape `(1, H, W, 3)` whose values all lie in `[0, 1]`; a grayscale grid
is expanded to 3 channels by replication before resizing
(preprocessing it gives the same tensor as preprocessing its
pre-expanded 3-channel copy). Images decoding to other channel counts
(e.g. 4-channel RGBA) or deeper bit depths are not covered: see the
counterexample. -/
theorem preprocess_shape_unit_range (imgH imgW : Nat)
    (hH : 0 < imgH) (hW : 0 < imgW) (fs : FS) (p : String) (d : Decoded)
    (h w c : Nat) (hfs : fs p = some d)
    (hshape : (∃ rows, d = Decoded.gray rows ∧ Rect2 rows h w) ∨
              (∃ rows, d = Decoded.multi rows ∧ Rect rows h w c ∧ (c = 1 ∨ c = 3)))
    (hvals : ∀ v ∈ decodedVals d, v ≤ 255) :
    ∃ t, preprocess_image imgH imgW fs p = (some t, []) ∧
      tensorShape t = [1, imgH, imgW, 3] ∧
      (∀ v ∈ tensorVals t, Frac.inUnit v) ∧
      t = [normalize (resizeGrid imgH imgW (toMulti d))] ∧
      (∀ rows, d = Decoded.gray rows →
        preprocessDecoded imgH imgW d =
        preprocessDecoded imgH imgW
          (Decoded.multi (rows.map (fun r => r.map expandPix)))) := by
  have hmulti : Rect (toMulti d) h w 3 ∧
      ∀ v ∈ gridVals (toMulti d), v ≤ 255 := by
    rcases hshape with ⟨rows, rfl, hre⟩ | ⟨rows, rfl, hre, hc⟩
    · refine ⟨toMulti_rect_gray hre, ?_⟩
      intro v hv
      exact hvals v (toMulti_vals_gray v hv)
    · rcases hc with rfl | rfl
      · refine ⟨toMulti_rect_one hre, ?_⟩
        intro v hv
        exact hvals v (toMulti_vals_one hre v hv)
      · rw [toMulti_three hre]
        exact ⟨hre, hvals⟩
  obtain ⟨hrect, hv255⟩ := hmulti
  have hrrect : Rect (resizeGrid imgH imgW (toMulti d)) imgH imgW 3 :=
    resizeGrid_rect hH hW hrect
  refine ⟨preprocessDecoded imgH imgW d,
    by simp [preprocess_image, hfs], ?_, ?_, rfl, ?_⟩
  · exact tensorShape_normalize hrrect
  · intro v hv
    obtain ⟨n, hn, rfl⟩ :=
      tensorVals_normalize v (by simpa [preprocessDecoded] using hv)
    have : n ≤ 255 := hv255 n (resizeGrid_vals hH hW hrect n hn)
    refine ⟨?_, ?_, ?_⟩
    · show 0 < (255 : Nat)
      decide
    · show (0 : Int) ≤ (n : Int)
      exact Int.natCast_nonneg n
    · show (n : Int) ≤ ((255 : Nat) : Int)
      exact_mod_cast this
  · rintro rows2 rfl
    rcases hshape with ⟨rows3, heq, hre⟩ | ⟨rows3, heq, _⟩
    · have h23 : rows3 = rows2 := by injection heq with h; exact h.symm
      rw [h23] at hre
      have hexp : Rect (rows2.map (fun r => r.map expandPix)) h w 3 :=
        toMulti_rect_gray hre
      simp only [preprocessDecoded]
      rw [toMulti_three hexp]
      rfl
    · cases heq

/-- C1 witness: the amended theorem applied to a concrete 1×1 8-bit
grayscale image at model input size 1×1. -/
theorem preprocess_shape_unit_range_witness :
    ∃ t, preprocess_image 1 1 (fun _ => some (Decoded.gray [[7]])) "a" = (some t, []) ∧
      tensorShape t = [1, 1, 1, 3] ∧
      (∀ v ∈ tensorVals t, Frac.inUnit v) ∧
      t = [normalize (resizeGrid 1 1 (toMulti (Decoded.gray [[7]])))] ∧
      (∀ rows, Decoded.gray [[7]] = Decoded.gray rows →
        preprocessDecoded 1 1 (Decoded.gray [[7]]) =
        preprocessDecoded 1 1
          (Decoded.multi (rows.map (fun r => r.map expandPix)))) :=
  preprocess_shape_unit_range 1 1 (by decide) (by decide)
    (fun _ => some (Decoded.gray [[7]])) "a" (Decoded.gray [[7]]) 1 1 1 rfl
    (Or.inl ⟨[[7]], rfl, by decide⟩) (by decide)

theorem batchLoop_eq (imgH imgW : Nat) (fs : FS) (model : Model) :
    ∀ (paths : List String) (i : Nat) (st : BatchSt),
    batchLoop imgH imgW fs model i paths st =
      (loopOk imgH imgW fs model paths,
       ⟨st.evs ++ loopTail imgH imgW fs model i paths,
        st.results ++ loopRows imgH imgW fs model paths,
        st.items ++ loopItems imgH imgW fs model paths,
        st.cfgPairs ++ loopPairs imgH imgW fs model i st.items.length paths,
        loopProg imgH imgW fs model i st.progressVal paths⟩) := by
  intro paths
  induction paths with
  | nil =>
    intro i st
    simp [batchLoop, loopOk, loopTail, loopRows, loopItems, loopPairs, loopProg]
  | cons p rest ih =>
    intro i st
    rcases h : (predict_image imgH imgW fs model p).2 with u | pr
    · simp only [batchLoop, h, loopOk, loopTail, loopRows, loopItems, loopPairs,
        loopProg, pstat]
      simp [h]
    · rcases pr with ⟨lab, c⟩
      rcases lab with _ | label
      · simp only [batchLoop, h, loopOk, loopTail, loopRows, loopItems, loopPairs,
          loopProg, pstat]
        simp only [h, ih]
        simp [List.append_assoc]
      · simp only [batchLoop, h, loopOk, loopTail, loopRows, loopItems, loopPairs,
          loopProg, pstat, rowOf, itemOf]
        simp only [h, ih]
        simp [List.append_assoc]

theorem predict_evs (imgH imgW : Nat) (fs : FS) (model : Model) (p : String) :
    (predict_image imgH imgW fs model p).1 = [] ∨
    (predict_image imgH imgW fs model p).1 = [Ev.showError p] := by
  rcases hf : fs p with _ | d
  · right; simp [predict_image, preprocess_image, hf]
  · left
    rcases hm : model (preprocessDecoded imgH imgW d) with u | out <;>
      simp [predict_image, preprocess_image, hf, hm]

theorem calledPaths_append (a b : List Ev) :
    calledPaths (a ++ b) = calledPaths a ++ calledPaths b :=
  List.filterMap_append a b _

theorem calledPaths_predict_evs (imgH imgW : Nat) (fs : FS) (model : Model)
    (p : String) : calledPaths (predict_image imgH imgW fs model p).1 = [] := by
  rcases predict_evs imgH imgW fs model p with h | h <;> simp [h, calledPaths]

theorem calledPaths_cons_call (p : String) (l : List Ev) :
    calledPaths (Ev.predictCall p :: l) = p :: calledPaths l := by
  simp [calledPaths, List.filterMap_cons]

theorem calledPaths_gui (s : String) (k v : Nat) (col : String) :
    calledPaths [Ev.insertItem s, Ev.itemconfig k col,
      Ev.setProgress v, Ev.updateIdletasks] = [] := rfl

theorem calledPaths_cons_insert (s : String) (l : List Ev) :
    calledPaths (Ev.insertItem s :: l) = calledPaths l := by
  simp [calledPaths, List.filterMap_cons]

theorem calledPaths_cons_cfg (k : Nat) (col : String) (l : List Ev) :
    calledPaths (Ev.itemconfig k col :: l) = calledPaths l := by
  simp [calledPaths, List.filterMap_cons]

theorem calledPaths_cons_prog (v : Nat) (l : List Ev) :
    calledPaths (Ev.setProgress v :: l) = calledPaths l := by
  simp [calledPaths, List.filterMap_cons]

theorem calledPaths_cons_updt (l : List Ev) :
    calledPaths (Ev.updateIdletasks :: l) = calledPaths l := by
  simp [calledPaths, List.filterMap_cons]

theorem calledPaths_cons_err (p : String) (l : List Ev) :
    calledPaths (Ev.showError p :: l) = calledPaths l := by
  simp [calledPaths, List.filterMap_cons]

theorem calledPaths_loopTail (imgH imgW : Nat) (fs : FS) (model : Model) :
    ∀ (paths : List String),
    (∀ q ∈ paths, pstat imgH imgW fs model q ≠ PStat.raise) →
    ∀ i, calledPaths (loopTail imgH imgW fs model i paths) = paths := by
  intro paths
  induction paths with
  | nil => intro _ i; simp [loopTail, calledPaths]
  | cons p rest ih =>
    intro hok i
    have hrest := fun q hq => hok q (List.mem_cons_of_mem p hq)
    rcases hp : (predict_image imgH imgW fs model p).2 with u | pr
    · exact absurd (by simp [pstat, hp]) (hok p (List.mem_cons_self p rest))
    · rcases pr with ⟨lab, c⟩
      rcases lab with _ | label <;>
      · simp only [loopTail, hp, List.cons_append]
        simp [calledPaths_cons_call, calledPaths_append,
          calledPaths_predict_evs, calledPaths_cons_insert,
          calledPaths_cons_cfg, calledPaths_cons_prog,
          calledPaths_cons_updt, calledPaths_cons_err, ih hrest]

theorem calledPaths_loopTail_raise (imgH imgW : Nat) (fs : FS) (model : Model)
    (p : String) (post : List String) :
    ∀ (pre : List String),
    (∀ q ∈ pre, pstat imgH imgW fs model q ≠ PStat.raise) →
    pstat imgH imgW fs model p = PStat.raise →
    ∀ i, calledPaths (loopTail imgH imgW fs model i (pre ++ p :: post)) =
      pre ++ [p] := by
  intro pre
  induction pre with
  | nil =>
    intro _ hp i
    rcases hpr : (predict_image imgH imgW fs model p).2 with u | pr
    · simp only [List.nil_append, loopTail, hpr]
      rw [calledPaths_cons_call, calledPaths_predict_evs]
    · rcases pr with ⟨lab, c⟩
      rcases lab with _ | label <;> simp [pstat, hpr] at hp
  | cons q pre' ih =>
    intro hok hp i
    have hpre' := fun r hr => hok r (List.mem_cons_of_mem q hr)
    rcases hq : (predict_image imgH imgW fs model q).2 with u | pr
    · exact absurd (by simp [pstat, hq]) (hok q (List.mem_cons_self q pre'))
    · rcases pr with ⟨lab, c⟩
      rcases lab with _ | label <;>
      · simp only [List.cons_append, loopTail, hq]
        simp [calledPaths_cons_call, calledPaths_append,
          calledPaths_predict_evs, calledPaths_cons_insert,
          calledPaths_cons_cfg, calledPaths_cons_prog,
          calledPaths_cons_updt, calledPaths_cons_err, ih hpre' hp]

theorem loopTail_events (imgH imgW : Nat) (fs : FS) (model : Model) :
    ∀ (paths : List String) (i : Nat),
    ∀ e ∈ loopTail imgH imgW fs model i paths,
      isWrite e = false ∧ e ≠ Ev.getTimestamp := by
  intro paths
  induction paths with
  | nil => intro i e he; simp [loopTail] at he
  | cons p rest ih =>
    intro i e he
    have hevs : ∀ e' ∈ (predict_image imgH imgW fs model p).1,
        isWrite e' = false ∧ e' ≠ Ev.getTimestamp := by
      rcases predict_evs imgH imgW fs model p with h | h <;>
        (intro e' he'; rw [h] at he'; simp at he' <;> simp_all [isWrite])
    rcases hp : (predict_image imgH imgW fs model p).2 with u | pr
    · simp only [loopTail, hp] at he
      rcases List.mem_cons.1 he with rfl | he'
      · exact ⟨rfl, by simp⟩
      · exact hevs e he'
    · rcases pr with ⟨lab, c⟩
      rcases lab with _ | label
      · simp only [loopTail, hp, List.cons_append, List.mem_cons,
          List.mem_append] at he
        rcases he with rfl | (h1 | h2)
        · exact ⟨rfl, by simp⟩
        · exact hevs e h1
        · exact ih (i + 1) e h2
      · simp only [loopTail, hp, List.cons_append, List.mem_cons,
          List.mem_append] at he
        rcases he with rfl | ((h1 | h3) | h4)
        · exact ⟨rfl, by simp⟩
        · exact hevs e h1
        · rcases h3 with h | h | h | h <;> simp_all [isWrite]
        · exact ih (i + 1) e h4

theorem showError_mem_loopTail (imgH imgW : Nat) (fs : FS) (model : Model)
    (p : String) :
    ∀ (paths : List String) (i : Nat),
    (∀ q ∈ paths, pstat imgH imgW fs model q ≠ PStat.raise) →
    p ∈ paths → fs p = none →
    Ev.showError p ∈ loopTail imgH imgW fs model i paths := by
  intro paths
  induction paths with
  | nil => intro i _ hmem; simp at hmem
  | cons q rest ih =>
    intro i hok hmem hfs
    have hrest := fun r hr => hok r (List.mem_cons_of_mem q hr)
    rcases List.mem_cons.1 hmem with rfl | hmem'
    · have hp2 : (predict_image imgH imgW fs model p).2 = Except.ok (none, none) := by
        simp [predict_image, preprocess_image, hfs]
      have hp1 : (predict_image imgH imgW fs model p).1 = [Ev.showError p] := by
        simp [predict_image, preprocess_image, hfs]
      simp [loopTail, hp2, hp1]
    · rcases hq : (predict_image imgH imgW fs model q).2 with u | pr
      · exact absurd (by simp [pstat, hq]) (hok q (List.mem_cons_self q rest))
      · rcases pr with ⟨lab, c⟩
        rcases lab with _ | label
        · simp only [loopTail, hq, List.cons_append, List.mem_cons,
            List.mem_append]
          exact Or.inr (Or.inr (ih (i + 1) hrest hmem' hfs))
        · simp only [loopTail, hq, List.cons_append, List.mem_cons,
            List.mem_append]
          exact Or.inr (Or.inr (ih (i + 1) hrest hmem' hfs))

theorem loopRows_eq (imgH imgW : Nat) (fs : FS) (model : Model) :
    ∀ (paths : List String),
    (∀ q ∈ paths, pstat imgH imgW fs model q ≠ PStat.raise) →
    loopRows imgH imgW fs model paths =
      paths.filterMap (rowOf imgH imgW fs model) := by
  intro paths
  induction paths with
  | nil => intro _; simp [loopRows]
  | cons p rest ih =>
    intro hok
    have hrest := fun q hq => hok q (List.mem_cons_of_mem p hq)
    rcases hp : (predict_image imgH imgW fs model p).2 with u | pr
    · exact absurd (by simp [pstat, hp]) (hok p (List.mem_cons_self p rest))
    · rcases pr with ⟨lab, c⟩
      rcases lab with _ | label
      · have hps : pstat imgH imgW fs model p = PStat.skip := by simp [pstat, hp]
        have hrow : rowOf imgH imgW fs model p = none := by simp [rowOf, hp]
        simp [loopRows, hps, hrow, ih hrest]
      · have hps : pstat imgH imgW fs model p = PStat.success := by
          simp [pstat, hp]
        have hrow : rowOf imgH imgW fs model p =
            some [basename p, label, fmt2 (c.getD ⟨0, 1⟩) ++ "%"] := by
          simp [rowOf, hp]
        simp [loopRows, hps, hrow, ih hrest]

theorem loopProg_all_success (imgH imgW : Nat) (fs : FS) (model : Model) :
    ∀ (paths : List String),
    (∀ q ∈ paths, pstat imgH imgW fs model q = PStat.success) →
    ∀ i cur, loopProg imgH imgW fs model i cur paths =
      if paths = [] then cur else i + paths.length - 1 := by
  intro paths
  induction paths with
  | nil => intro _ i cur; simp [loopProg]
  | cons p rest ih =>
    intro hall i cur
    have hp := hall p (List.mem_cons_self p rest)
    have hrest := fun q hq => hall q (List.mem_cons_of_mem p hq)
    simp only [loopProg, hp, ih hrest]
    rcases rest with _ | ⟨q, rest'⟩
    · simp
    · simp only [List.length_cons,
        if_neg (by simp : ¬(p :: q :: rest' = [])),
        if_neg (by simp : ¬(q :: rest' = []))]
      omega

theorem loopOk_of_no_raise (imgH imgW : Nat) (fs : FS) (model : Model) :
    ∀ (paths : List String),
    (∀ q ∈ paths, pstat imgH imgW fs model q ≠ PStat.raise) →
    loopOk imgH imgW fs model paths = true := by
  intro paths
  induction paths with
  | nil => intro _; rfl
  | cons p rest ih =>
    intro hok
    have hrest := fun q hq => hok q (List.mem_cons_of_mem p hq)
    have hp := hok p (List.mem_cons_self p rest)
    rcases hps : pstat imgH imgW fs model p with _ | _ | _ <;>
      simp_all [loopOk, hps, ih hrest]

theorem loopOk_raise (imgH imgW : Nat) (fs : FS) (model : Model)
    (p : String) (post : List String) :
    ∀ (pre : List String),
    (∀ q ∈ pre, pstat imgH imgW fs model q ≠ PStat.raise) →
    pstat imgH imgW fs model p = PStat.raise →
    loopOk imgH imgW fs model (pre ++ p :: post) = false := by
  intro pre
  induction pre with
  | nil => intro _ hp; simp [loopOk, hp]
  | cons q pre' ih =>
    intro hok hp
    have hpre' := fun r hr => hok r (List.mem_cons_of_mem q hr)
    have hq := hok q (List.mem_cons_self q pre')
    rcases hqs : pstat imgH imgW fs model q with _ | _ | _ <;>
      simp_all [loopOk, hqs, ih hpre' hp]

theorem length_filterMap_countP {α β : Type} (f : α → Option β) :
    ∀ (l : List α), (l.filterMap f).length = l.countP (fun a => (f a).isSome) := by
  intro l
  induction l with
  | nil => simp
  | cons a t ih =>
    rcases ha : f a with _ | b <;>
      simp [List.filterMap_cons, List.countP_cons, ha, ih]

theorem loopPairs_mem (imgH imgW : Nat) (fs : FS) (model : Model)
    (p : String) (post : List String) :
    ∀ (pre : List String) (i acc : Nat),
    (∀ q ∈ pre, pstat imgH imgW fs model q ≠ PStat.raise) →
    pstat imgH imgW fs model p = PStat.success →
    (i + pre.length - 1,
     acc + pre.countP (fun q => pstat imgH imgW fs model q == PStat.success) + 1) ∈
      loopPairs imgH imgW fs model i acc (pre ++ p :: post) := by
  intro pre
  induction pre with
  | nil =>
    intro i acc _ hp
    simp [loopPairs, hp]
  | cons q pre' ih =>
    intro i acc hok hp
    have hpre' := fun r hr => hok r (List.mem_cons_of_mem q hr)
    have hq := hok q (List.mem_cons_self q pre')
    rcases hqs : pstat imgH imgW fs model q with _ | _ | _
    · have := ih (i + 1) (acc + 1) hpre' hp
      simp only [List.cons_append, loopPairs, hqs]
      refine List.mem_cons_of_mem _ ?_
      have harith : i + 1 + pre'.length - 1 = i + (q :: pre').length - 1 := by
        simp only [List.length_cons]; omega
      have hcnt : acc + 1 +
          pre'.countP (fun r => pstat imgH imgW fs model r == PStat.success) + 1 =
          acc + (q :: pre').countP
            (fun r => pstat imgH imgW fs model r == PStat.success) + 1 := by
        simp only [List.countP_cons, hqs]; simp; omega
      rw [harith, hcnt] at this
      exact this
    · have := ih (i + 1) acc hpre' hp
      simp only [List.cons_append, loopPairs, hqs]
      have harith : i + 1 + pre'.length - 1 = i + (q :: pre').length - 1 := by
        simp only [List.length_cons]; omega
      have hcnt : acc +
          pre'.countP (fun r => pstat imgH imgW fs model r == PStat.success) + 1 =
          acc + (q :: pre').countP
            (fun r => pstat imgH imgW fs model r == PStat.success) + 1 := by
        simp only [List.countP_cons, hqs]; simp
      rw [harith, hcnt] at this
      exact this
    · exact absurd hqs hq

theorem countP_add_countP_not {α : Type} (p : α → Bool) :
    ∀ l : List α, l.countP p + l.countP (fun a => !(p a)) = l.length := by
  intro l
  induction l with
  | nil => simp
  | cons a t ih =>
    simp only [List.countP_cons, List.length_cons]
    cases h : p a <;> simp [h] <;> omega

theorem batch_predict_some (imgH imgW : Nat) (fs : FS) (model : Model)
    (datasetDir ts : String) (paths : List String) (hne : paths ≠ []) :
    ∃ out, batch_predict imgH imgW fs model datasetDir ts paths = some out ∧
      out.csvFile = pathJoin (pathJoin datasetDir "predictions")
        ("xray_predictions_" ++ ts ++ ".csv") ∧
      out.progressMax = paths.length ∧
      out.progressValue = loopProg imgH imgW fs model 1 0 paths ∧
      out.results = loopRows imgH imgW fs model paths ∧
      out.listboxItems = loopItems imgH imgW fs model paths ∧
      out.cfgPairs = loopPairs imgH imgW fs model 1 0 paths ∧
      out.completed = loopOk imgH imgW fs model paths ∧
      out.trace = ([Ev.setProgress 0, Ev.setProgressMax paths.length,
          Ev.clearListbox, Ev.makeDirs (pathJoin datasetDir "predictions"),
          Ev.getTimestamp] ++ loopTail imgH imgW fs model 1 paths) ++
        (if loopOk imgH imgW fs model paths then
          [Ev.writeFile out.csvFile
            (headerRow ++ loopRows imgH imgW fs model paths),
           Ev.showInfo out.csvFile] else []) ∧
      out.written = (if loopOk imgH imgW fs model paths then
        some (headerRow ++ loopRows imgH imgW fs model paths) else none) := by
  simp only [batch_predict, if_neg hne, batchLoop_eq]
  cases hok : loopOk imgH imgW fs model paths <;>
    simp [hok, headerRow, List.append_assoc]

/-- C3 counterexample: the claim fails as stated. In a batch over the
single path "a" whose decode fails, the failed entry does not advance
the progress indicator (the `continue` at line 102 precedes
`progress['value'] = i` at line 106), so after the list is exhausted the
progress value is 0 while its maximum is 1. -/
theorem batch_progress_cex :
    ((batch_predict 1 1 (fun _ => none) (fun _ => Except.ok []) "D" "TS"
      ["a"]).map (fun o => (o.progressValue, o.progressMax))) = some (0, 1) ∧
    (0 : Nat) ≠ 1 :=
  ⟨rfl, by decide⟩

/-- C3 (amended): failed entries advance neither the progress indicator
nor the report; each successful entry sets the progress to its 1-based
position, so in a batch in which every entry succeeds the progress
reaches its maximum, which equals the number N of submitted paths, and
the batch completes. -/
theorem batch_progress_all_success (imgH imgW : Nat) (fs : FS)
    (model : Model) (datasetDir ts : String) (paths : List String)
    (hne : paths ≠ [])
    (hall : ∀ q ∈ paths, pstat imgH imgW fs model q = PStat.success) :
    ∃ out, batch_predict imgH imgW fs model datasetDir ts paths = some out ∧
      out.progressValue = paths.length ∧
      out.progressMax = paths.length ∧
      out.completed = true := by
  obtain ⟨out, hb, _, hmax, hval, _, _, _, hcmp, _, _⟩ :=
    batch_predict_some imgH imgW fs model datasetDir ts paths hne
  refine ⟨out, hb, ?_, hmax, ?_⟩
  · rw [hval, loopProg_all_success imgH imgW fs model paths hall 1 0,
      if_neg hne]
    omega
  · rw [hcmp]
    exact loopOk_of_no_raise imgH imgW fs model paths
      (fun q hq => by rw [hall q hq]; simp)

/-- C3 witness: the amended theorem applied to a concrete batch of two
decodable images under a model that classifies everything. -/
theorem batch_progress_all_success_witness :
    ∃ out, batch_predict 1 1 (fun _ => some (Decoded.gray [[7]]))
      (fun _ => Except.ok [[⟨1, 4⟩, ⟨1, 2⟩, ⟨1, 8⟩, ⟨1, 8⟩]]) "D" "TS"
      ["a", "b"] = some out ∧
      out.progressValue = (["a", "b"] : List String).length ∧
      out.progressMax = (["a", "b"] : List String).length ∧
      out.completed = true :=
  batch_progress_all_success 1 1 (fun _ => some (Decoded.gray [[7]]))
    (fun _ => Except.ok [[⟨1, 4⟩, ⟨1, 2⟩, ⟨1, 8⟩, ⟨1, 8⟩]]) "D" "TS"
    ["a", "b"] (by decide) (by decide)

/-- C4 counterexample: the claim fails as stated. In batch mode a decode
failure is not silent: `preprocess_image` itself raises the per-image
error dialog (line 48) before returning `None`, so the batch run over
the single undecodable path "a" emits a `showError` notification —
contradicting "no per-occurrence notification to the user" in batch
mode. The entry is indeed excluded from the report. -/
theorem batch_notify_cex :
    ∃ out, batch_predict 1 1 (fun _ => none) (fun _ => Except.ok []) "D" "TS"
      ["a"] = some out ∧
      Ev.showError "a" ∈ out.trace ∧ out.results = [] ∧ out.completed = true := by
  refine ⟨_, rfl, ?_, rfl, rfl⟩
  decide

/-- C4 (amended): an image that fails to decode is skipped, the batch
continues and completes, and the failure is excluded from the report;
but the user IS notified per occurrence in batch mode as well — the same
error dialog `preprocess_image` raises in single mode. -/
theorem batch_decode_failure_skipped_notified (imgH imgW : Nat) (fs : FS)
    (model : Model) (dims : String → Nat × Nat) (datasetDir ts p : String)
    (paths : List String) (hne : paths ≠ [])
    (hok : ∀ q ∈ paths, pstat imgH imgW fs model q ≠ PStat.raise)
    (hmem : p ∈ paths) (hfs : fs p = none) (hps : p ≠ "") :
    ∃ out, batch_predict imgH imgW fs model datasetDir ts paths = some out ∧
      Ev.showError p ∈ out.trace ∧
      rowOf imgH imgW fs model p = none ∧
      out.completed = true ∧
      upload_predict_single imgH imgW fs model dims p =
        some (Except.ok ⟨[Ev.showError p], none, none⟩) := by
  obtain ⟨out, hb, _, _, _, _, _, _, hcmp, htr, _⟩ :=
    batch_predict_some imgH imgW fs model datasetDir ts paths hne
  refine ⟨out, hb, ?_, ?_, ?_, ?_⟩
  · rw [htr]
    refine List.mem_append.2 (Or.inl (List.mem_append.2 (Or.inr ?_)))
    exact showError_mem_loopTail imgH imgW fs model p paths 1 hok hmem hfs
  · simp [rowOf, predict_image, preprocess_image, hfs]
  · rw [hcmp]; exact loopOk_of_no_raise imgH imgW fs model paths hok
  · simp [upload_predict_single, predict_image, preprocess_image, hfs, hps]

/-- C4 witness: the amended theorem applied to a concrete two-path batch
whose first path fails to decode. -/
theorem batch_decode_failure_skipped_notified_witness :
    ∃ out, batch_predict 1 1
      (fun q => if q = "a" then none else some (Decoded.gray [[7]]))
      (fun _ => Except.ok [[⟨1, 4⟩, ⟨1, 2⟩, ⟨1, 8⟩, ⟨1, 8⟩]]) "D" "TS"
      ["a", "b"] = some out ∧
      Ev.showError "a" ∈ out.trace ∧
      rowOf 1 1 (fun q => if q = "a" then none else some (Decoded.gray [[7]]))
        (fun _ => Except.ok [[⟨1, 4⟩, ⟨1, 2⟩, ⟨1, 8⟩, ⟨1, 8⟩]]) "a" = none ∧
      out.completed = true ∧
      upload_predict_single 1 1
        (fun q => if q = "a" then none else some (Decoded.gray [[7]]))
        (fun _ => Except.ok [[⟨1, 4⟩, ⟨1, 2⟩, ⟨1, 8⟩, ⟨1, 8⟩]])
        (fun _ => (1, 1)) "a" =
        some (Except.ok ⟨[Ev.showError "a"], none, none⟩) :=
  batch_decode_failure_skipped_notified 1 1
    (fun q => if q = "a" then none else some (Decoded.gray [[7]]))
    (fun _ => Except.ok [[⟨1, 4⟩, ⟨1, 2⟩, ⟨1, 8⟩, ⟨1, 8⟩]])
    (fun _ => (1, 1)) "D" "TS" "a" ["a", "b"] (by decide) (by decide)
    (by decide) rfl (by decide)

/-- C5 counterexample: the claim fails as stated. `model.predict` is
invoked outside any try/except (line 55), so when the Model Provider
raises on the decodable path "a", the batch over ["a", "b"] aborts:
only "a" is ever processed, no report is written, and "b" is never
reached — the failure is NOT treated like a decode error, which would
have been skipped without aborting. -/
theorem batch_inference_abort_cex :
    ∃ out, batch_predict 1 1 (fun _ => some (Decoded.gray [[7]]))
      (fun _ => Except.error ()) "D" "TS" ["a", "b"] = some out ∧
      out.completed = false ∧ out.written = none ∧
      calledPaths out.trace = ["a"] ∧ out.results = [] := by
  refine ⟨_, rfl, rfl, rfl, ?_, rfl⟩
  decide

/-- C5 (amended): a decode failure is skipped and the batch continues,
but a Model Provider invocation failure is not caught anywhere:
`predict_image` propagates the exception (returning no partial or
garbage result), the batch aborts at that entry — later entries are
never invoked — and no report file is written. -/
theorem batch_inference_error_aborts (imgH imgW : Nat) (fs : FS)
    (model : Model) (datasetDir ts p : String) (pre post : List String)
    (hpre : ∀ q ∈ pre, pstat imgH imgW fs model q ≠ PStat.raise)
    (hp : pstat imgH imgW fs model p = PStat.raise) :
    ∃ out, batch_predict imgH imgW fs model datasetDir ts
      (pre ++ p :: post) = some out ∧
      out.completed = false ∧
      out.written = none ∧
      calledPaths out.trace = pre ++ [p] ∧
      (predict_image imgH imgW fs model p).2 = Except.error () := by
  have hne : pre ++ p :: post ≠ [] := by simp
  obtain ⟨out, hb, _, _, _, _, _, _, hcmp, htr, hwr⟩ :=
    batch_predict_some imgH imgW fs model datasetDir ts (pre ++ p :: post) hne
  have hok : loopOk imgH imgW fs model (pre ++ p :: post) = false :=
    loopOk_raise imgH imgW fs model p post pre hpre hp
  have herr : (predict_image imgH imgW fs model p).2 = Except.error () := by
    rcases he : (predict_image imgH imgW fs model p).2 with u | pr
    · cases u; rfl
    · rcases pr with ⟨lab, c⟩
      rcases lab with _ | label <;> simp [pstat, he] at hp
  refine ⟨out, hb, by rw [hcmp, hok], by rw [hwr, hok]; rfl, ?_, herr⟩
  rw [htr, hok]
  simp only [if_neg (by decide : ¬(false = true)), List.append_nil]
  rw [calledPaths_append]
  have h5 : calledPaths [Ev.setProgress 0,
      Ev.setProgressMax (pre ++ p :: post).length, Ev.clearListbox,
      Ev.makeDirs (pathJoin datasetDir "predictions"), Ev.getTimestamp] = [] := rfl
  rw [h5, calledPaths_loopTail_raise imgH imgW fs model p post pre hpre hp 1]
  simp

/-- C5 witness: the amended theorem applied to a concrete batch whose
second entry's model invocation raises (e.g. on a tensor of the wrong
shape). -/
theorem batch_inference_error_aborts_witness :
    ∃ out, batch_predict 1 1
      (fun q => if q = "a" then none else some (Decoded.gray [[7]]))
      (fun _ => Except.error ()) "D" "TS" (["a"] ++ "b" :: ["c"]) = some out ∧
      out.completed = false ∧
      out.written = none ∧
      calledPaths out.trace = ["a"] ++ ["b"] ∧
      (predict_image 1 1
        (fun q => if q = "a" then none else some (Decoded.gray [[7]]))
        (fun _ => Except.error ()) "b").2 = Except.error () :=
  batch_inference_error_aborts 1 1
    (fun q => if q = "a" then none else some (Decoded.gray [[7]]))
    (fun _ => Except.error ()) "D" "TS" "b" ["a"] ["c"]
    (by decide) (by decide)

/-- C6 counterexample: the claim fails as stated. In a batch invocation
over the single decodable path "a" whose Model Provider invocation
fails, the handler aborts before reaching the write (line 108), so the
report file is written zero times, not exactly once. -/
theorem batch_no_write_on_raise_cex :
    ∃ out, batch_predict 1 1 (fun _ => some (Decoded.gray [[7]]))
      (fun _ => Except.error ()) "D" "TS" ["a"] = some out ∧
      out.written = none ∧ out.trace.countP isWrite = 0 := by
  refine ⟨_, rfl, rfl, ?_⟩
  decide

/-- C6 (amended): in every batch invocation over N submitted images in
which no Model Provider invocation raises (so the K failures are decode
failures), the report is written exactly once, only after all N images
have been processed: the trace ends with the single write followed by
the completion dialog, and no earlier event is a write. The file
contains the header row ("Image", "Prediction", "Confidence") followed
by exactly N − K data rows, one per successful file, in submission
order (`filterMap` over the submitted list); if zero images succeed it
is the header alone. -/
theorem batch_report_single_write (imgH imgW : Nat) (fs : FS)
    (model : Model) (datasetDir ts : String) (paths : List String)
    (hne : paths ≠ [])
    (hok : ∀ q ∈ paths, pstat imgH imgW fs model q ≠ PStat.raise) :
    ∃ out, batch_predict imgH imgW fs model datasetDir ts paths = some out ∧
      out.written = some (headerRow ++
        paths.filterMap (rowOf imgH imgW fs model)) ∧
      (∃ evs0, out.trace = evs0 ++
        [Ev.writeFile out.csvFile
          (headerRow ++ paths.filterMap (rowOf imgH imgW fs model)),
         Ev.showInfo out.csvFile] ∧
        ∀ e ∈ evs0, isWrite e = false) ∧
      (paths.filterMap (rowOf imgH imgW fs model)).length =
        paths.length -
          paths.countP (fun q => !(pstat imgH imgW fs model q == PStat.success)) := by
  obtain ⟨out, hb, _, _, _, hres, _, _, _, htr, hwr⟩ :=
    batch_predict_some imgH imgW fs model datasetDir ts paths hne
  have hlok : loopOk imgH imgW fs model paths = true :=
    loopOk_of_no_raise imgH imgW fs model paths hok
  have hrows : loopRows imgH imgW fs model paths =
      paths.filterMap (rowOf imgH imgW fs model) :=
    loopRows_eq imgH imgW fs model paths hok
  refine ⟨out, hb, ?_, ?_, ?_⟩
  · rw [hwr, hlok, if_pos rfl, hrows]
  · refine ⟨[Ev.setProgress 0, Ev.setProgressMax paths.length,
      Ev.clearListbox, Ev.makeDirs (pathJoin datasetDir "predictions"),
      Ev.getTimestamp] ++ loopTail imgH imgW fs model 1 paths, ?_, ?_⟩
    · rw [htr, hlok, if_pos rfl, hrows]
    · intro e he
      rcases List.mem_append.1 he with h1 | h2
      · simp only [List.mem_cons, List.not_mem_nil, or_false] at h1
        rcases h1 with rfl | rfl | rfl | rfl | rfl <;> rfl
      · exact (loopTail_events imgH imgW fs model paths 1 e h2).1
  · rw [length_filterMap_countP]
    have hcong : paths.countP (fun q => (rowOf imgH imgW fs model q).isSome) =
        paths.countP (fun q => pstat imgH imgW fs model q == PStat.success) := by
      refine List.countP_congr ?_
      intro q hq
      rcases hp : (predict_image imgH imgW fs model q).2 with u | pr
      · exact absurd (by simp [pstat, hp]) (hok q hq)
      · rcases pr with ⟨lab, c⟩
        rcases lab with _ | label <;> simp [rowOf, pstat, hp]
    rw [hcong]
    have h1 := paths.countP_le_length
      (fun q => pstat imgH imgW fs model q == PStat.success)
    have h2 := countP_add_countP_not
      (fun q => pstat imgH imgW fs model q == PStat.success) paths
    omega

/-- C6 witness: the amended theorem applied to a concrete batch of two
paths of which the first fails to decode. -/
theorem batch_report_single_write_witness :
    ∃ out, batch_predict 1 1
      (fun q => if q = "a" then none else some (Decoded.gray [[7]]))
      (fun _ => Except.ok [[⟨1, 4⟩, ⟨1, 2⟩, ⟨1, 8⟩, ⟨1, 8⟩]]) "D" "TS"
      ["a", "b"] = some out ∧
      out.written = some (headerRow ++ (["a", "b"] : List String).filterMap
        (rowOf 1 1 (fun q => if q = "a" then none else some (Decoded.gray [[7]]))
          (fun _ => Except.ok [[⟨1, 4⟩, ⟨1, 2⟩, ⟨1, 8⟩, ⟨1, 8⟩]]))) ∧
      (∃ evs0, out.trace = evs0 ++
        [Ev.writeFile out.csvFile (headerRow ++
          (["a", "b"] : List String).filterMap
            (rowOf 1 1 (fun q => if q = "a" then none else some (Decoded.gray [[7]]))
              (fun _ => Except.ok [[⟨1, 4⟩, ⟨1, 2⟩, ⟨1, 8⟩, ⟨1, 8⟩]]))),
         Ev.showInfo out.csvFile] ∧
        ∀ e ∈ evs0, isWrite e = false) ∧
      ((["a", "b"] : List String).filterMap
        (rowOf 1 1 (fun q => if q = "a" then none else some (Decoded.gray [[7]]))
          (fun _ => Except.ok [[⟨1, 4⟩, ⟨1, 2⟩, ⟨1, 8⟩, ⟨1, 8⟩]]))).length =
        (["a", "b"] : List String).length -
          (["a", "b"] : List String).countP (fun q => !(pstat 1 1
            (fun q2 => if q2 = "a" then none else some (Decoded.gray [[7]]))
            (fun _ => Except.ok [[⟨1, 4⟩, ⟨1, 2⟩, ⟨1, 8⟩, ⟨1, 8⟩]]) q ==
            PStat.success)) :=
  batch_report_single_write 1 1
    (fun q => if q = "a" then none else some (Decoded.gray [[7]]))
    (fun _ => Except.ok [[⟨1, 4⟩, ⟨1, 2⟩, ⟨1, 8⟩, ⟨1, 8⟩]]) "D" "TS"
    ["a", "b"] (by decide) (by decide)

/-- C7 counterexample: the claim fails as stated. In a concrete batch
over one decodable, classifiable path, the timestamp is read (line 97)
before the loop processes any image: the `getTimestamp` event precedes
the `setProgress 1` event of the first (and only) entry, so the
timestamp is not computed after the list is exhausted. -/
theorem batch_timestamp_cex :
    ∃ out, batch_predict 1 1 (fun _ => some (Decoded.gray [[7]]))
      (fun _ => Except.ok [[⟨1, 4⟩, ⟨1, 2⟩, ⟨1, 8⟩, ⟨1, 8⟩]]) "D" "TS"
      ["a"] = some out ∧
      Ev.getTimestamp ∈ out.trace ∧
      Ev.setProgress 1 ∈ out.trace ∧
      out.trace.indexOf Ev.getTimestamp < out.trace.indexOf (Ev.setProgress 1) := by
  refine ⟨_, rfl, ?_, ?_, ?_⟩ <;> decide

/-- C7 (amended): in every batch invocation the timestamp is read
exactly once, before any image is processed (right after the destination
directory is created), and the output path combines the fixed
destination directory `<datasetDir>/predictions` (created idempotently;
the `makeDirs` event precedes everything but the progress/listbox
resets) with the fixed prefix and the timestamp, yielding
`xray_predictions_<timestamp>.csv`. -/
theorem batch_timestamp_and_path (imgH imgW : Nat) (fs : FS)
    (model : Model) (datasetDir ts : String) (paths : List String)
    (hne : paths ≠ []) :
    ∃ out, batch_predict imgH imgW fs model datasetDir ts paths = some out ∧
      out.csvFile = pathJoin (pathJoin datasetDir "predictions")
        ("xray_predictions_" ++ ts ++ ".csv") ∧
      ∃ rest, out.trace = [Ev.setProgress 0, Ev.setProgressMax paths.length,
        Ev.clearListbox, Ev.makeDirs (pathJoin datasetDir "predictions"),
        Ev.getTimestamp] ++ rest ∧
      Ev.getTimestamp ∉ rest := by
  obtain ⟨out, hb, hcsv, _, _, _, _, _, _, htr, _⟩ :=
    batch_predict_some imgH imgW fs model datasetDir ts paths hne
  refine ⟨out, hb, hcsv, ⟨loopTail imgH imgW fs model 1 paths ++
    (if loopOk imgH imgW fs model paths = true then
      [Ev.writeFile out.csvFile (headerRow ++ loopRows imgH imgW fs model paths),
       Ev.showInfo out.csvFile] else []), ?_, ?_⟩⟩
  · rw [htr, List.append_assoc]
  · intro hmem
    rcases List.mem_append.1 hmem with h1 | h2
    · exact (loopTail_events imgH imgW fs model paths 1 _ h1).2 rfl
    · rcases hlok : loopOk imgH imgW fs model paths <;> rw [hlok] at h2 <;>
        simp at h2

/-- C7 witness: the amended theorem applied to a concrete one-path
batch. -/
theorem batch_timestamp_and_path_witness :
    ∃ out, batch_predict 1 1 (fun _ => none) (fun _ => Except.ok []) "D" "TS"
      ["a"] = some out ∧
      out.csvFile = pathJoin (pathJoin "D" "predictions")
        ("xray_predictions_" ++ "TS" ++ ".csv") ∧
      ∃ rest, out.trace = [Ev.setProgress 0,
        Ev.setProgressMax (["a"] : List String).length, Ev.clearListbox,
        Ev.makeDirs (pathJoin "D" "predictions"), Ev.getTimestamp] ++ rest ∧
      Ev.getTimestamp ∉ rest :=
  batch_timestamp_and_path 1 1 (fun _ => none) (fun _ => Except.ok [])
    "D" "TS" ["a"] (by decide)

/-- C9: when preprocessing fails, `predict_image` returns the pair
`(None, None)` — both components `None` — and both callers detect the
failure by the first component alone: `upload_predict_single` displays
neither image nor result text (its failure branch fires exactly when the
first component is `None`), and the batch loop contributes no report row
and no listbox item for the path, whatever the second component is. -/
theorem predict_none_none_callers (imgH imgW : Nat) (fs : FS) (model : Model)
    (dims : String → Nat × Nat) (p : String) (hfs : fs p = none)
    (hne : p ≠ "") :
    predict_image imgH imgW fs model p =
      ([Ev.showError p], Except.ok (none, none)) ∧
    upload_predict_single imgH imgW fs model dims p =
      some (Except.ok ⟨[Ev.showError p], none, none⟩) ∧
    rowOf imgH imgW fs model p = none ∧
    itemOf imgH imgW fs model p = none ∧
    pstat imgH imgW fs model p = PStat.skip ∧
    (∀ lab c, (predict_image imgH imgW fs model p).2 = Except.ok (lab, c) →
      (lab = none ↔
        (upload_predict_single imgH imgW fs model dims p).isSome ∧
        rowOf imgH imgW fs model p = none)) := by
  have hpred : predict_image imgH imgW fs model p =
      ([Ev.showError p], Except.ok (none, none)) := by
    simp [predict_image, preprocess_image, hfs]
  refine ⟨hpred, ?_, ?_, ?_, ?_, ?_⟩
  · simp [upload_predict_single, hpred, hne]
  · simp [rowOf, hpred]
  · simp [itemOf, hpred]
  · simp [pstat, hpred]
  · intro lab c hlc
    rw [hpred] at hlc
    simp only [Except.ok.injEq, Prod.mk.injEq] at hlc
    obtain ⟨rfl, rfl⟩ := hlc
    simp only [true_iff]
    exact ⟨by simp [upload_predict_single, hpred, hne], by simp [rowOf, hpred]⟩

/-- C9 witness: the theorem applied at a concrete undecodable path. -/
theorem predict_none_none_callers_witness :
    predict_image 1 1 (fun _ => none) (fun _ => Except.ok []) "a" =
      ([Ev.showError "a"], Except.ok (none, none)) ∧
    upload_predict_single 1 1 (fun _ => none) (fun _ => Except.ok [])
      (fun _ => (1, 1)) "a" =
      some (Except.ok ⟨[Ev.showError "a"], none, none⟩) ∧
    rowOf 1 1 (fun _ => none) (fun _ => Except.ok []) "a" = none ∧
    itemOf 1 1 (fun _ => none) (fun _ => Except.ok []) "a" = none ∧
    pstat 1 1 (fun _ => none) (fun _ => Except.ok []) "a" = PStat.skip ∧
    (∀ lab c, (predict_image 1 1 (fun _ => none) (fun _ => Except.ok [])
        "a").2 = Except.ok (lab, c) →
      (lab = none ↔
        (upload_predict_single 1 1 (fun _ => none) (fun _ => Except.ok [])
          (fun _ => (1, 1)) "a").isSome ∧
        rowOf 1 1 (fun _ => none) (fun _ => Except.ok []) "a" = none)) :=
  predict_none_none_callers 1 1 (fun _ => none) (fun _ => Except.ok [])
    (fun _ => (1, 1)) "a" rfl (by decide)

/-- C10: in a batch run the index passed to `listbox.itemconfig` for the
i-th submitted file is i−1 (`enumerate` starts at 1, line 105 uses
`i-1`), while the listbox holds one line per successful image only.
Hence if some earlier submitted image failed to decode while a later one
succeeds, the index used for that success is at least the number of
entries then in the listbox, i.e. it addresses a nonexistent entry. For
a success at 1-based position |pre|+1 preceded by a failed entry, the
`itemconfig` call uses index |pre| while the listbox then holds
`len ≤ |pre|` entries. -/
theorem batch_itemconfig_overflow (imgH imgW : Nat) (fs : FS)
    (model : Model) (datasetDir ts p q0 : String) (pre post : List String)
    (hpre : ∀ q ∈ pre, pstat imgH imgW fs model q ≠ PStat.raise)
    (hq0 : q0 ∈ pre) (hq0s : pstat imgH imgW fs model q0 = PStat.skip)
    (hp : pstat imgH imgW fs model p = PStat.success) :
    ∃ out, batch_predict imgH imgW fs model datasetDir ts
      (pre ++ p :: post) = some out ∧
      ∃ len, (pre.length, len) ∈ out.cfgPairs ∧ len ≤ pre.length := by
  have hne : pre ++ p :: post ≠ [] := by simp
  obtain ⟨out, hb, _, _, _, _, _, hcfg, _, _, _⟩ :=
    batch_predict_some imgH imgW fs model datasetDir ts (pre ++ p :: post) hne
  have hmem := loopPairs_mem imgH imgW fs model p post pre 1 0 hpre hp
  have hcnt : pre.countP
      (fun q => pstat imgH imgW fs model q == PStat.success) < pre.length := by
    have hle := pre.countP_le_length
      (fun q => pstat imgH imgW fs model q == PStat.success)
    rcases Nat.lt_or_ge (pre.countP
      (fun q => pstat imgH imgW fs model q == PStat.success)) pre.length with
      h | h
    · exact h
    · have heq : pre.countP
          (fun q => pstat imgH imgW fs model q == PStat.success) =
          pre.length := le_antisymm hle h
      have := List.countP_eq_length.1 heq q0 hq0
      rw [hq0s] at this
      simp at this

  refine ⟨out, hb, pre.countP
    (fun q => pstat imgH imgW fs model q == PStat.success) + 1, ?_, by omega⟩
  rw [hcfg]
  have : 1 + pre.length - 1 = pre.length := by omega
  rw [this] at hmem
  simpa using hmem

/-- C10 witness: the theorem applied to a concrete batch whose first
path fails to decode and whose second succeeds: the `itemconfig` call
for the second path uses index 1 while the listbox holds 1 entry
(valid indices being 0 only). -/
theorem batch_itemconfig_overflow_witness :
    ∃ out, batch_predict 1 1
      (fun q => if q = "a" then none else some (Decoded.gray [[7]]))
      (fun _ => Except.ok [[⟨1, 4⟩, ⟨1, 2⟩, ⟨1, 8⟩, ⟨1, 8⟩]]) "D" "TS"
      (["a"] ++ "b" :: []) = some out ∧
      ∃ len, ((["a"] : List String).length, len) ∈ out.cfgPairs ∧
        len ≤ (["a"] : List String).length :=
  batch_itemconfig_overflow 1 1
    (fun q => if q = "a" then none else some (Decoded.gray [[7]]))
    (fun _ => Except.ok [[⟨1, 4⟩, ⟨1, 2⟩, ⟨1, 8⟩, ⟨1, 8⟩]]) "D" "TS"
    "b" "a" ["a"] [] (by decide) (by decide) (by decide) (by decide)

theorem roundDiv_bounds (a b : Nat) (hb : 0 < b) (hab : a ≤ b) :
    max 1 ((a * 300 + b / 2) / b) ≤ 300 ∧
    (max 1 ((a * 300 + b / 2) / b)) * b ≤ 300 * a + b ∧
    300 * a ≤ (max 1 ((a * 300 + b / 2) / b)) * b + b := by
  have hdm := Nat.div_add_mod (a * 300 + b / 2) b
  have hr : (a * 300 + b / 2) % b < b := Nat.mod_lt _ hb
  have h2' : b / 2 < b := Nat.div_lt_self hb (by decide)
  generalize hu : b * ((a * 300 + b / 2) / b) = u at hdm
  have hqle : (a * 300 + b / 2) / b ≤ 300 := by
    have hlt : b * ((a * 300 + b / 2) / b) < b * 301 := by
      rw [hu]; omega
    have := Nat.lt_of_mul_lt_mul_left hlt
    omega
  rcases Nat.eq_zero_or_pos ((a * 300 + b / 2) / b) with hq0 | hq1
  · rw [hq0] at hu ⊢
    simp only [Nat.mul_zero] at hu
    have hmax : max 1 0 = 1 := rfl
    rw [hmax, Nat.one_mul]
    refine ⟨by omega, by omega, by omega⟩
  · rw [Nat.max_eq_right hq1]
    have hqb : ((a * 300 + b / 2) / b) * b = u := by
      rw [Nat.mul_comm]; exact hu
    refine ⟨hqle, by omega, by omega⟩

theorem thumbnailDims_le (w h : Nat) (hw : 0 < w) (hh : 0 < h) :
    (thumbnailDims w h).1 ≤ 300 ∧ (thumbnailDims w h).2 ≤ 300 := by
  unfold thumbnailDims
  split
  · next hb => exact ⟨hb.1, hb.2⟩
  · next hb =>
    split
    · next hhw =>
      exact ⟨le_refl 300, (roundDiv_bounds h w hw hhw).1⟩
    · next hhw =>
      push_neg at hhw
      exact ⟨(roundDiv_bounds w h hh (le_of_lt hhw)).1, le_refl 300⟩

theorem thumbnailDims_aspect (w h : Nat) (hw : 0 < w) (hh : 0 < h)
    (hnb : ¬(w ≤ 300 ∧ h ≤ 300)) :
    (h ≤ w → (thumbnailDims w h).1 = 300 ∧
      (thumbnailDims w h).2 * w ≤ 300 * h + w ∧
      300 * h ≤ (thumbnailDims w h).2 * w + w) ∧
    (w < h → (thumbnailDims w h).2 = 300 ∧
      (thumbnailDims w h).1 * h ≤ 300 * w + h ∧
      300 * w ≤ (thumbnailDims w h).1 * h + h) := by
  constructor
  · intro hhw
    rw [thumbnailDims, if_neg hnb, if_pos hhw]
    exact ⟨rfl, (roundDiv_bounds h w hw hhw).2.1, (roundDiv_bounds h w hw hhw).2.2⟩
  · intro hwh
    rw [thumbnailDims, if_neg hnb, if_neg (by omega)]
    exact ⟨rfl, (roundDiv_bounds w h hh (le_of_lt hwh)).2.1,
      (roundDiv_bounds w h hh (le_of_lt hwh)).2.2⟩

/-- C8: for every (image, label, confidence) triple, the Annotation
stage scales the source image so that neither dimension exceeds 300
(leaving it unchanged when already within bounds, and otherwise pinning
the larger dimension to 300 with the other scaled aspect-preservingly up
to rounding), and the rendered output consists of exactly two draw
commands and nothing else — in particular no file write: an opaque
rectangle from (0,0) spanning the full thumbnail width and 25 units
high, filled with the color mapped from the label (black when the label
is not in the mapping), and the text `"<label> (<confidence:.2f>%)"` at
(5,5) in white. -/
theorem overlay_spec (w h : Nat) (label : String) (conf : Frac)
    (hw : 0 < w) (hh : 0 < h) :
    overlay_prediction w h label conf = (thumbnailDims w h,
      [DrawOp.rect 0 0 (thumbnailDims w h).1 25 (colorsGet label "black"),
       DrawOp.text 5 5 (label ++ " (" ++ fmt2 conf ++ "%)") "white"]) ∧
    (thumbnailDims w h).1 ≤ 300 ∧ (thumbnailDims w h).2 ≤ 300 ∧
    (w ≤ 300 → h ≤ 300 → thumbnailDims w h = (w, h)) ∧
    (¬(w ≤ 300 ∧ h ≤ 300) →
      (h ≤ w → (thumbnailDims w h).1 = 300 ∧
        (thumbnailDims w h).2 * w ≤ 300 * h + w ∧
        300 * h ≤ (thumbnailDims w h).2 * w + w) ∧
      (w < h → (thumbnailDims w h).2 = 300 ∧
        (thumbnailDims w h).1 * h ≤ 300 * w + h ∧
        300 * w ≤ (thumbnailDims w h).1 * h + h)) ∧
    (CLASS_COLORS.find? (fun pr => pr.1 == label) = none →
      colorsGet label "black" = "black") := by
  obtain ⟨h1, h2⟩ := thumbnailDims_le w h hw hh
  refine ⟨rfl, h1, h2, ?_, ?_, ?_⟩
  · intro hwle hhle
    rw [thumbnailDims, if_pos ⟨hwle, hhle⟩]
  · intro hnb
    exact thumbnailDims_aspect w h hw hh hnb
  · intro hfind
    simp [colorsGet, hfind]

/-- C8 witness: the theorem applied to a concrete 400×200 image with
label "NORMAL" and confidence 97.345. -/
theorem overlay_spec_witness :
    overlay_prediction 400 200 "NORMAL" ⟨97345, 1000⟩ = (thumbnailDims 400 200,
      [DrawOp.rect 0 0 (thumbnailDims 400 200).1 25 (colorsGet "NORMAL" "black"),
       DrawOp.text 5 5 ("NORMAL" ++ " (" ++ fmt2 ⟨97345, 1000⟩ ++ "%)") "white"]) ∧
    (thumbnailDims 400 200).1 ≤ 300 ∧ (thumbnailDims 400 200).2 ≤ 300 ∧
    (400 ≤ 300 → 200 ≤ 300 → thumbnailDims 400 200 = (400, 200)) ∧
    (¬(400 ≤ 300 ∧ 200 ≤ 300) →
      (200 ≤ 400 → (thumbnailDims 400 200).1 = 300 ∧
        (thumbnailDims 400 200).2 * 400 ≤ 300 * 200 + 400 ∧
        300 * 200 ≤ (thumbnailDims 400 200).2 * 400 + 400) ∧
      (400 < 200 → (thumbnailDims 400 200).2 = 300 ∧
        (thumbnailDims 400 200).1 * 200 ≤ 300 * 400 + 200 ∧
        300 * 400 ≤ (thumbnailDims 400 200).1 * 200 + 200)) ∧
    (CLASS_COLORS.find? (fun pr => pr.1 == "NORMAL") = none →
      colorsGet "NORMAL" "black" = "black") :=
  overlay_spec 400 200 "NORMAL" ⟨97345, 1000⟩ (by decide) (by decide)

end XrayApp
